import Mathlib

/-!
Verification of the analytics engine of `my-python-data-tool`
(`src/core/indicators.py` and `src/core/market_analyzer.py`).

Pandas/NumPy float columns are modelled by the type `PV`: a value is either
`nan` (which also stands for a pandas missing value), a signed infinity, or a
finite value carried as an exact rational.  Arithmetic on `PV` follows
IEEE-754 semantics as exposed by pandas: `nan` propagates, `0/0 = nan`,
`x/0 = ±inf` for finite nonzero `x`, comparisons against `nan` are false.
Negative zero is not modelled; no computation in this code distinguishes it.

Square roots of floats are irrational in general, so every function of the
source that calls `np.sqrt` / `.std()` is parameterised by a function
`sq : ℚ → ℚ` standing for the float square root on nonnegative finite
arguments; theorems assume of `sq` only the properties of the real square
root that they need (for instance nonnegativity on nonnegative arguments).
-/

/-- Model of one pandas/NumPy float cell: missing/NaN, ±∞, or a finite value
(carried exactly as a rational). -/
inductive PV where
  | nan : PV
  | pinf : PV
  | ninf : PV
  | num : ℚ → PV
deriving DecidableEq, Repr

namespace PV

/-- Checks for the missing/NaN marker. -/
def isNan : PV → Bool
  | nan => true
  | _ => false

/-- Checks for a finite value. -/
def isNum : PV → Bool
  | num _ => true
  | _ => false

/-- IEEE negation. -/
def neg : PV → PV
  | nan => nan
  | pinf => ninf
  | ninf => pinf
  | num q => num (-q)

/-- IEEE addition: `nan` propagates, `∞ + (-∞) = nan`. -/
def add : PV → PV → PV
  | nan, _ => nan
  | _, nan => nan
  | pinf, ninf => nan
  | ninf, pinf => nan
  | pinf, _ => pinf
  | _, pinf => pinf
  | ninf, _ => ninf
  | _, ninf => ninf
  | num a, num b => num (a + b)

/-- IEEE subtraction. -/
def sub (a b : PV) : PV := add a (neg b)

/-- IEEE multiplication: `∞ · 0 = nan`. -/
def mul : PV → PV → PV
  | nan, _ => nan
  | _, nan => nan
  | pinf, pinf => pinf
  | pinf, ninf => ninf
  | ninf, pinf => ninf
  | ninf, ninf => pinf
  | pinf, num b => if b = 0 then nan else if 0 < b then pinf else ninf
  | num a, pinf => if a = 0 then nan else if 0 < a then pinf else ninf
  | ninf, num b => if b = 0 then nan else if 0 < b then ninf else pinf
  | num a, ninf => if a = 0 then nan else if 0 < a then ninf else pinf
  | num a, num b => num (a * b)

/-- IEEE division as exposed by pandas/NumPy: `0/0 = nan`, `x/0 = ±∞`
for finite nonzero `x`, `x/±∞ = 0` for finite `x`, `∞/∞ = nan`. -/
def div : PV → PV → PV
  | nan, _ => nan
  | _, nan => nan
  | pinf, pinf => nan
  | pinf, ninf => nan
  | ninf, pinf => nan
  | ninf, ninf => nan
  | pinf, num b => if 0 ≤ b then pinf else ninf
  | ninf, num b => if 0 ≤ b then ninf else pinf
  | num _, pinf => num 0
  | num _, ninf => num 0
  | num a, num b =>
      if b = 0 then (if a = 0 then nan else if 0 < a then pinf else ninf)
      else num (a / b)

/-- IEEE absolute value. -/
def abs : PV → PV
  | nan => nan
  | pinf => pinf
  | ninf => pinf
  | num q => num |q|

/-- Model of `np.sign`. -/
def sign : PV → PV
  | nan => nan
  | pinf => num 1
  | ninf => num (-1)
  | num q => num (if q < 0 then -1 else if 0 < q then 1 else 0)

/-- IEEE strict less-than: false whenever an operand is `nan`. -/
def lt : PV → PV → Bool
  | nan, _ => false
  | _, nan => false
  | pinf, _ => false
  | _, pinf => true
  | ninf, ninf => false
  | ninf, _ => true
  | _, ninf => false
  | num a, num b => decide (a < b)

/-- IEEE less-or-equal: false whenever an operand is `nan`. -/
def le : PV → PV → Bool
  | nan, _ => false
  | _, nan => false
  | _, pinf => true
  | pinf, _ => false
  | ninf, _ => true
  | _, ninf => false
  | num a, num b => decide (a ≤ b)

/-- IEEE strict greater-than. -/
def gt (a b : PV) : Bool := lt b a

/-- IEEE greater-or-equal. -/
def ge (a b : PV) : Bool := le b a

/-- Binary minimum propagating `nan` (as NumPy reductions do inside a
rolling window with the default `min_periods`). -/
def min2 : PV → PV → PV
  | nan, _ => nan
  | _, nan => nan
  | ninf, _ => ninf
  | _, ninf => ninf
  | pinf, b => b
  | a, pinf => a
  | num a, num b => num (min a b)

/-- Binary maximum propagating `nan`. -/
def max2 : PV → PV → PV
  | nan, _ => nan
  | _, nan => nan
  | pinf, _ => pinf
  | _, pinf => pinf
  | ninf, b => b
  | a, ninf => a
  | num a, num b => num (max a b)

/-- Model of the float square root given the abstract finite square root
`sq`: `sqrt nan = nan`, `sqrt ∞ = ∞`, `sqrt` of a negative argument is
`nan` (NumPy emits a warning and yields NaN). -/
def sqrtWith (sq : ℚ → ℚ) : PV → PV
  | nan => nan
  | pinf => pinf
  | ninf => nan
  | num q => if q < 0 then nan else num (sq q)

end PV

/-- A pandas column, modelled as a total function from row index to cell
value; rows past the end of the frame are never read by the engine. -/
def Col : Type := ℕ → PV

/-- Converts a pandas boolean cell to the result of `.astype(int)`
(comparisons against `nan` are false, hence map to `0`). -/
def boolToPv (b : Bool) : PV := PV.num (if b then 1 else 0)

/-- Model of `Series.diff()`: first entry is missing. -/
def diffCol (c : Col) : Col :=
  fun i => if i = 0 then PV.nan else PV.sub (c i) (c (i - 1))

/-- Model of `Series.shift(1)`. -/
def shift1 (c : Col) : Col :=
  fun i => if i = 0 then PV.nan else c (i - 1)

/-- Model of `Series.shift(n)` for positive `n`. -/
def shiftN (n : ℕ) (c : Col) : Col :=
  fun i => if i < n then PV.nan else c (i - n)

/-- Model of `Series.shift(-n)` on a frame of `len` rows: values move
backward and the final `n` positions become missing. -/
def shiftBack (n len : ℕ) (c : Col) : Col :=
  fun i => if i + n < len then c (i + n) else PV.nan

/-- Sum of a list of cells under IEEE addition. -/
def pvSum (l : List PV) : PV := l.foldl PV.add (PV.num 0)

/-- Mean of a list of cells (`nan` for an empty list, as in pandas). -/
def pvMeanList (l : List PV) : PV :=
  if l.length = 0 then PV.nan else PV.div (pvSum l) (PV.num (l.length : ℚ))

/-- The trailing window of length `n` ending at row `i` (requires
`n ≤ i + 1`). -/
def windowList (c : Col) (n i : ℕ) : List PV :=
  (List.range n).map (fun k => c (i + 1 - n + k))

/-- Model of `Series.rolling(window=n).agg`: missing until `n` rows of
history exist; the aggregate itself propagates `nan`, matching the default
`min_periods = n`. -/
def rollingAgg (f : List PV → PV) (n : ℕ) (c : Col) : Col :=
  fun i => if 1 ≤ n ∧ n ≤ i + 1 then f (windowList c n i) else PV.nan

/-- Model of `rolling(n).mean()`. -/
def rollingMean (n : ℕ) (c : Col) : Col :=
  rollingAgg (fun w => PV.div (pvSum w) (PV.num (n : ℚ))) n c

/-- Model of `rolling(n).min()`. -/
def rollingMin (n : ℕ) (c : Col) : Col :=
  rollingAgg (fun w => w.foldl PV.min2 PV.pinf) n c

/-- Model of `rolling(n).max()`. -/
def rollingMax (n : ℕ) (c : Col) : Col :=
  rollingAgg (fun w => w.foldl PV.max2 PV.ninf) n c

/-- Sample variance of one window of `n` cells (`ddof = 1`, as in the
pandas default); for `n = 1` the quotient is `0/0 = nan`, matching
`rolling(1).std()`. -/
def windowVar (n : ℕ) (w : List PV) : PV :=
  let m := PV.div (pvSum w) (PV.num (n : ℚ))
  PV.div (pvSum (w.map (fun x => PV.mul (PV.sub x m) (PV.sub x m))))
    (PV.num ((n : ℚ) - 1))

/-- Model of `rolling(n).std()` given the abstract square root `sq`. -/
def rollingStd (sq : ℚ → ℚ) (n : ℕ) (c : Col) : Col :=
  rollingAgg (fun w => PV.sqrtWith sq (windowVar n w)) n c

/-- Model of `rolling(n).apply(lambda x: np.mean(np.abs(x - np.mean(x))))`
used by the CCI computation. -/
def rollingMad (n : ℕ) (c : Col) : Col :=
  rollingAgg (fun w => pvMeanList (w.map (fun x => PV.abs (PV.sub x (pvMeanList w))))) n c

/-- One step of `ewm(span, adjust=False).mean()`: the state is the current
mean (if any finite observation has been seen) together with the relative
weight of the history; a missing observation decays the history weight,
matching `ignore_na=False`. -/
def ewmStep (a : ℚ) : Option PV × ℚ → PV → Option PV × ℚ
  | (m, w), x =>
    if x.isNan then (m, w * (1 - a))
    else
      match m with
      | none => (some x, 1 - a)
      | some mv =>
          let m2 := PV.div (PV.add (PV.mul (PV.num w) mv) (PV.mul (PV.num a) x))
            (PV.num (w + a))
          (some m2, (w + a) * (1 - a))

/-- State of the exponentially weighted mean after processing rows
`0 .. i`. -/
def ewmState (a : ℚ) (c : Col) : ℕ → Option PV × ℚ
  | 0 => ewmStep a (none, 1) (c 0)
  | i + 1 => ewmStep a (ewmState a c i) (c (i + 1))

/-- Model of `Series.ewm(span=p, adjust=False).mean()` with smoothing
factor `2/(p+1)`; rows before the first valid observation are missing. -/
def ewmMean (p : ℕ) (c : Col) : Col :=
  fun i => ((ewmState (2 / ((p : ℚ) + 1)) c i).1).getD PV.nan

/-- Accumulator of `Series.cumsum()` over rows `0 .. i-1`, skipping
missing entries (`skipna=True`, the pandas default). -/
def cumAccSum (c : Col) : ℕ → PV
  | 0 => PV.num 0
  | i + 1 => if (c i).isNan then cumAccSum c i else PV.add (cumAccSum c i) (c i)

/-- Model of `Series.cumsum()`: a missing entry stays missing but does not
poison later partial sums. -/
def cumsumCol (c : Col) : Col :=
  fun i => if (c i).isNan then PV.nan else PV.add (cumAccSum c i) (c i)

/-- Rowwise maximum of three cells skipping missing entries, as in
`pd.concat([...], axis=1).max(axis=1)` with the default `skipna=True`. -/
def maxSkip2 (x y : PV) : PV :=
  if x.isNan then y else if y.isNan then x else PV.max2 x y

/-- Configuration of the indicator engine (`IndicatorConfig` in the
source, with the `__post_init__` defaults applied). -/
structure IndicatorConfig where
  smaPeriods : List ℕ
  emaPeriods : List ℕ
  rsiPeriod : ℕ
  macdFast : ℕ
  macdSlow : ℕ
  macdSignalP : ℕ
  bbPeriod : ℕ
  bbStd : ℚ
  stochasticK : ℕ
  stochasticD : ℕ
deriving Repr

/-- The default configuration from the source. -/
def defaultConfig : IndicatorConfig :=
  { smaPeriods := [5, 10, 20, 50, 200]
    emaPeriods := [8, 12, 21, 26, 50]
    rsiPeriod := 14
    macdFast := 12
    macdSlow := 26
    macdSignalP := 9
    bbPeriod := 20
    bbStd := 2
    stochasticK := 14
    stochasticD := 3 }

/-- Names of the columns handled by the engine; the parameterised
constructors mirror the interpolated pandas column names such as
`f-string SMA_p`. -/
inductive ColName where
  | bOpen | bHigh | bLow | bClose | bVolume
  | sma (p : ℕ) | ema (p : ℕ)
  | goldenCross | deathCross
  | rsi | rsiOverbought | rsiOversold
  | macd | macdSignal | macdHistogram | macdBullishCross | macdBearishCross
  | bbUpper | bbLower | bbMiddle | bbWidth | bbPosition | bbOverbought | bbOversold
  | stochK | stochD | stochOverbought | stochOversold
  | williamsR | cci
  | obv | volumeRoc | volumeMa | volumeRatio
  | atr | kcUpper | kcLower | kcMiddle
  | ichimokuTenkan | ichimokuKijun | ichimokuSenkouA | ichimokuSenkouB | ichimokuChikou
  | vwap
deriving DecidableEq, Repr

/-- Whether a column is one of the five raw OHLCV input columns. -/
def ColName.isBase : ColName → Bool
  | bOpen => true
  | bHigh => true
  | bLow => true
  | bClose => true
  | bVolume => true
  | _ => false

/-- A pandas DataFrame: a row count plus named columns in insertion
order. -/
structure DF where
  nRows : ℕ
  cols : List (ColName × Col)

/-- Looks a column up by name. -/
def DF.getCol? (df : DF) (n : ColName) : Option Col :=
  (df.cols.find? (fun p => decide (p.1 = n))).map Prod.snd

/-- Looks a column up by name, defaulting to an all-missing column. -/
def DF.getColD (df : DF) (n : ColName) : Col :=
  (df.getCol? n).getD (fun _ => PV.nan)

/-- Membership test mirroring the source checks of the form
`name in df.columns`. -/
def DF.hasCol (df : DF) (n : ColName) : Bool :=
  df.cols.any (fun p => decide (p.1 = n))

/-- Column assignment `df[name] = col`: replaces the column in place if
present, otherwise appends it. -/
def setColList (l : List (ColName × Col)) (n : ColName) (c : Col) : List (ColName × Col) :=
  match l with
  | [] => [(n, c)]
  | (m, c0) :: rest =>
      if m = n then (n, c) :: rest else (m, c0) :: setColList rest n c

/-- Column assignment on a DataFrame. -/
def DF.setCol (df : DF) (n : ColName) (c : Col) : DF :=
  { nRows := df.nRows, cols := setColList df.cols n c }

/-- Model of `TechnicalIndicators._calculate_moving_averages`. -/
def calcMovingAverages (cfg : IndicatorConfig) (df : DF) : DF :=
  let df1 := cfg.smaPeriods.foldl
    (fun d p => d.setCol (ColName.sma p) (rollingMean p (d.getColD ColName.bClose))) df
  let df2 := cfg.emaPeriods.foldl
    (fun d p => d.setCol (ColName.ema p) (ewmMean p (d.getColD ColName.bClose))) df1
  if df2.hasCol (ColName.sma 50) && df2.hasCol (ColName.sma 200) then
    let s50 := df2.getColD (ColName.sma 50)
    let s200 := df2.getColD (ColName.sma 200)
    let golden : Col := fun i =>
      boolToPv (PV.gt (s50 i) (s200 i) && PV.le (shift1 s50 i) (shift1 s200 i))
    let death : Col := fun i =>
      boolToPv (PV.lt (s50 i) (s200 i) && PV.ge (shift1 s50 i) (shift1 s200 i))
    (df2.setCol ColName.goldenCross golden).setCol ColName.deathCross death
  else df2

/-- Gain column of the RSI computation:
`delta.where(delta > 0, 0)` followed by `rolling(period).mean()` (a missing
delta fails the comparison and is replaced by `0`). -/
def rsiGain (period : ℕ) (close : Col) : Col :=
  rollingMean period
    (fun i => if PV.gt (diffCol close i) (PV.num 0) then diffCol close i else PV.num 0)

/-- Loss column of the RSI computation:
`(-delta.where(delta < 0, 0)).rolling(period).mean()`. -/
def rsiLoss (period : ℕ) (close : Col) : Col :=
  rollingMean period
    (fun i => PV.neg (if PV.lt (diffCol close i) (PV.num 0) then diffCol close i else PV.num 0))

/-- RSI column: `100 - 100/(1 + gain/loss)`. -/
def rsiCol (period : ℕ) (close : Col) : Col :=
  fun i =>
    PV.sub (PV.num 100)
      (PV.div (PV.num 100)
        (PV.add (PV.num 1) (PV.div (rsiGain period close i) (rsiLoss period close i))))

/-- Model of `TechnicalIndicators._calculate_rsi`. -/
def calcRsi (cfg : IndicatorConfig) (df : DF) : DF :=
  let c := rsiCol cfg.rsiPeriod (df.getColD ColName.bClose)
  let df1 := df.setCol ColName.rsi c
  let df2 := df1.setCol ColName.rsiOverbought (fun i => boolToPv (PV.gt (c i) (PV.num 70)))
  df2.setCol ColName.rsiOversold (fun i => boolToPv (PV.lt (c i) (PV.num 30)))

/-- Model of `TechnicalIndicators._calculate_macd`. -/
def calcMacd (cfg : IndicatorConfig) (df : DF) : DF :=
  let close := df.getColD ColName.bClose
  let emaFast := ewmMean cfg.macdFast close
  let emaSlow := ewmMean cfg.macdSlow close
  let m : Col := fun i => PV.sub (emaFast i) (emaSlow i)
  let s := ewmMean cfg.macdSignalP m
  let h : Col := fun i => PV.sub (m i) (s i)
  let bullish : Col := fun i =>
    boolToPv (PV.gt (m i) (s i) && PV.le (shift1 m i) (shift1 s i))
  let bearish : Col := fun i =>
    boolToPv (PV.lt (m i) (s i) && PV.ge (shift1 m i) (shift1 s i))
  ((((df.setCol ColName.macd m).setCol ColName.macdSignal s).setCol
    ColName.macdHistogram h).setCol ColName.macdBullishCross bullish).setCol
    ColName.macdBearishCross bearish

/-- Model of `TechnicalIndicators._calculate_bollinger_bands`. -/
def calcBollingerBands (sq : ℚ → ℚ) (cfg : IndicatorConfig) (df : DF) : DF :=
  let close := df.getColD ColName.bClose
  let sma := rollingMean cfg.bbPeriod close
  let std := rollingStd sq cfg.bbPeriod close
  let upper : Col := fun i => PV.add (sma i) (PV.mul (std i) (PV.num cfg.bbStd))
  let lower : Col := fun i => PV.sub (sma i) (PV.mul (std i) (PV.num cfg.bbStd))
  let width : Col := fun i => PV.sub (upper i) (lower i)
  let position : Col := fun i =>
    PV.div (PV.sub (close i) (lower i)) (PV.sub (upper i) (lower i))
  let overbought : Col := fun i => boolToPv (PV.gt (close i) (upper i))
  let oversold : Col := fun i => boolToPv (PV.lt (close i) (lower i))
  ((((((df.setCol ColName.bbUpper upper).setCol ColName.bbLower lower).setCol
    ColName.bbMiddle sma).setCol ColName.bbWidth width).setCol
    ColName.bbPosition position).setCol ColName.bbOverbought overbought).setCol
    ColName.bbOversold oversold

/-- The raw stochastic oscillator column
`100 * (close - rolling_min(low, k)) / (rolling_max(high, k) - rolling_min(low, k))`. -/
def stochKCol (k : ℕ) (high low close : Col) : Col :=
  fun i =>
    PV.mul (PV.num 100)
      (PV.div (PV.sub (close i) (rollingMin k low i))
        (PV.sub (rollingMax k high i) (rollingMin k low i)))

/-- Model of `TechnicalIndicators._calculate_stochastic`. -/
def calcStochastic (cfg : IndicatorConfig) (df : DF) : DF :=
  let kc := stochKCol cfg.stochasticK (df.getColD ColName.bHigh)
    (df.getColD ColName.bLow) (df.getColD ColName.bClose)
  let dc := rollingMean cfg.stochasticD kc
  let overbought : Col := fun i => boolToPv (PV.gt (kc i) (PV.num 80))
  let oversold : Col := fun i => boolToPv (PV.lt (kc i) (PV.num 20))
  (((df.setCol ColName.stochK kc).setCol ColName.stochD dc).setCol
    ColName.stochOverbought overbought).setCol ColName.stochOversold oversold

/-- Model of `TechnicalIndicators._calculate_williams_r`. -/
def calcWilliamsR (df : DF) : DF :=
  let highMax := rollingMax 14 (df.getColD ColName.bHigh)
  let lowMin := rollingMin 14 (df.getColD ColName.bLow)
  let close := df.getColD ColName.bClose
  let wr : Col := fun i =>
    PV.mul (PV.num (-100))
      (PV.div (PV.sub (highMax i) (close i)) (PV.sub (highMax i) (lowMin i)))
  df.setCol ColName.williamsR wr

/-- Model of `TechnicalIndicators._calculate_cci` (typical price, its
20-period SMA and mean absolute deviation, `0.015` scaling). -/
def calcCci (df : DF) : DF :=
  let tp : Col := fun i =>
    PV.div (PV.add (PV.add (df.getColD ColName.bHigh i) (df.getColD ColName.bLow i))
      (df.getColD ColName.bClose i)) (PV.num 3)
  let smaTp := rollingMean 20 tp
  let mad := rollingMad 20 tp
  let c : Col := fun i =>
    PV.div (PV.sub (tp i) (smaTp i)) (PV.mul (PV.num (3 / 200)) (mad i))
  df.setCol ColName.cci c

/-- The summand of the OBV column before cumulation:
`(np.sign(close.diff()) * volume).fillna(0)`. -/
def obvTerm (close volume : Col) : Col := fun i =>
  let v := PV.mul (PV.sign (diffCol close i)) (volume i)
  if v.isNan then PV.num 0 else v

/-- The OBV column: `(np.sign(close.diff()) * volume).fillna(0).cumsum()`. -/
def obvCol (close volume : Col) : Col := cumsumCol (obvTerm close volume)

/-- Model of `TechnicalIndicators._calculate_volume_indicators`.
`pct_change(periods=10)` is modelled without forward-filling. -/
def calcVolumeIndicators (df : DF) : DF :=
  let close := df.getColD ColName.bClose
  let volume := df.getColD ColName.bVolume
  let roc : Col := fun i =>
    if i < 10 then PV.nan
    else PV.mul (PV.div (PV.sub (volume i) (volume (i - 10))) (volume (i - 10))) (PV.num 100)
  let vma := rollingMean 20 volume
  let vratio : Col := fun i => PV.div (volume i) (vma i)
  (((df.setCol ColName.obv (obvCol close volume)).setCol ColName.volumeRoc roc).setCol
    ColName.volumeMa vma).setCol ColName.volumeRatio vratio

/-- The true-range column of the ATR computation: rowwise maximum of
`high - low`, `|high - prev_close|` and `|low - prev_close|`, skipping
missing entries. -/
def trueRangeCol (high low close : Col) : Col :=
  fun i =>
    maxSkip2
      (maxSkip2 (PV.sub (high i) (low i)) (PV.abs (PV.sub (high i) (shift1 close i))))
      (PV.abs (PV.sub (low i) (shift1 close i)))

/-- Model of `TechnicalIndicators._calculate_atr`. -/
def calcAtr (df : DF) : DF :=
  df.setCol ColName.atr
    (rollingMean 14 (trueRangeCol (df.getColD ColName.bHigh) (df.getColD ColName.bLow)
      (df.getColD ColName.bClose)))

/-- Model of `TechnicalIndicators._calculate_keltner_channels`. -/
def calcKeltnerChannels (df : DF) : DF :=
  let ema20 := ewmMean 20 (df.getColD ColName.bClose)
  let atrC := if df.hasCol ColName.atr then df.getColD ColName.atr
    else (calcAtr df).getColD ColName.atr
  let upper : Col := fun i => PV.add (ema20 i) (PV.mul (atrC i) (PV.num 2))
  let lower : Col := fun i => PV.sub (ema20 i) (PV.mul (atrC i) (PV.num 2))
  ((df.setCol ColName.kcUpper upper).setCol ColName.kcLower lower).setCol
    ColName.kcMiddle ema20

/-- Model of `TechnicalIndicators._calculate_ichimoku`. -/
def calcIchimoku (df : DF) : DF :=
  let high := df.getColD ColName.bHigh
  let low := df.getColD ColName.bLow
  let close := df.getColD ColName.bClose
  let tenkan : Col := fun i =>
    PV.div (PV.add (rollingMax 9 high i) (rollingMin 9 low i)) (PV.num 2)
  let kijun : Col := fun i =>
    PV.div (PV.add (rollingMax 26 high i) (rollingMin 26 low i)) (PV.num 2)
  let senkouA := shiftN 26 (fun i => PV.div (PV.add (tenkan i) (kijun i)) (PV.num 2))
  let senkouB := shiftN 26 (fun i =>
    PV.div (PV.add (rollingMax 52 high i) (rollingMin 52 low i)) (PV.num 2))
  let chikou := shiftBack 26 df.nRows close
  ((((df.setCol ColName.ichimokuTenkan tenkan).setCol ColName.ichimokuKijun kijun).setCol
    ColName.ichimokuSenkouA senkouA).setCol ColName.ichimokuSenkouB senkouB).setCol
    ColName.ichimokuChikou chikou

/-- Model of `TechnicalIndicators._calculate_vwap`. -/
def calcVwap (df : DF) : DF :=
  let high := df.getColD ColName.bHigh
  let low := df.getColD ColName.bLow
  let close := df.getColD ColName.bClose
  let volume := df.getColD ColName.bVolume
  let tp : Col := fun i => PV.div (PV.add (PV.add (high i) (low i)) (close i)) (PV.num 3)
  let cumTpv := cumsumCol (fun i => PV.mul (tp i) (volume i))
  let cumVol := cumsumCol volume
  df.setCol ColName.vwap (fun i => PV.div (cumTpv i) (cumVol i))

/-- Model of `TechnicalIndicators.calculate_all`: the source first copies
the input frame (`df = data.copy()`), so the caller's frame is never
mutated; here the copy is implicit in the purely functional state
passing. -/
def calculateAll (sq : ℚ → ℚ) (cfg : IndicatorConfig) (data : DF) : DF :=
  calcVwap (calcIchimoku (calcKeltnerChannels (calcAtr (calcVolumeIndicators
    (calcCci (calcWilliamsR (calcStochastic cfg (calcBollingerBands sq cfg
      (calcMacd cfg (calcRsi cfg (calcMovingAverages cfg data)))))))))))

/-- Model of `Series.pct_change()` on a plain series: each entry is
`(x_i - x_(i-1)) / x_(i-1)` and the first entry is missing.  All closes the
analyzer feeds in are float data, so no forward-filling is involved. -/
def pctChangeList (cs : List PV) : List PV :=
  match cs with
  | [] => []
  | c :: rest =>
      PV.nan :: List.zipWith (fun prev cur => PV.div (PV.sub cur prev) prev) (c :: rest) rest

/-- Model of `Series.dropna()`: removes missing entries (infinities are
kept, as in pandas). -/
def dropnaList (l : List PV) : List PV := l.filter (fun v => !v.isNan)

/-- Mean of a series as computed by `Series.mean()` (skips missing
entries; `nan` when nothing remains). -/
def seriesMean (l : List PV) : PV :=
  let v := dropnaList l
  if v.length = 0 then PV.nan else PV.div (pvSum v) (PV.num (v.length : ℚ))

/-- Sample variance as computed by `Series.var()` (`ddof = 1`, skips
missing entries, `nan` with fewer than two observations). -/
def seriesVar (l : List PV) : PV :=
  let v := dropnaList l
  if v.length < 2 then PV.nan
  else
    let m := PV.div (pvSum v) (PV.num (v.length : ℚ))
    PV.div (pvSum (v.map (fun x => PV.mul (PV.sub x m) (PV.sub x m))))
      (PV.num ((v.length : ℚ) - 1))

/-- Sample standard deviation `Series.std()` given the abstract square
root. -/
def seriesStd (sq : ℚ → ℚ) (l : List PV) : PV := PV.sqrtWith sq (seriesVar l)

/-- Minimum of a series as computed by `Series.min()` (skips missing
entries; `nan` when nothing remains). -/
def seriesMin (l : List PV) : PV :=
  let v := dropnaList l
  if v.length = 0 then PV.nan else v.foldl PV.min2 PV.pinf

/-- Total order used to model NumPy sorting: `-∞ < finite < +∞ < nan`. -/
def pvLeSort : PV → PV → Bool
  | PV.ninf, _ => true
  | _, PV.ninf => false
  | _, PV.nan => true
  | PV.nan, _ => false
  | _, PV.pinf => true
  | PV.pinf, _ => false
  | PV.num a, PV.num b => decide (a ≤ b)

/-- Insertion into a sorted list. -/
def insertSorted (x : PV) : List PV → List PV
  | [] => [x]
  | y :: r => if pvLeSort x y then x :: y :: r else y :: insertSorted x r

/-- Ascending insertion sort of cells. -/
def sortPV : List PV → List PV
  | [] => []
  | x :: r => insertSorted x (sortPV r)

/-- Model of `np.percentile(l, q)` with the default linear interpolation;
`nan` as soon as a missing entry is present, `nan` on an empty input. -/
def npPercentile (q : ℚ) (l : List PV) : PV :=
  if l.any PV.isNan then PV.nan
  else
    let s := sortPV l
    let n := s.length
    if n = 0 then PV.nan
    else
      let h : ℚ := ((n : ℚ) - 1) * q / 100
      let f : ℕ := h.floor.toNat
      if f + 1 < n then
        PV.add (s.getD f PV.nan)
          (PV.mul (PV.num (h - (f : ℚ))) (PV.sub (s.getD (f + 1) PV.nan) (s.getD f PV.nan)))
      else s.getD (n - 1) PV.nan

/-- Model of `(1 + returns).cumprod()` style cumulative products: a missing
entry stays missing but does not poison later products. -/
def cumprodGo (acc : PV) : List PV → List PV
  | [] => []
  | x :: r =>
      if x.isNan then PV.nan :: cumprodGo acc r
      else PV.mul acc x :: cumprodGo (PV.mul acc x) r

/-- Model of `Series.cumprod()`. -/
def cumprodList (l : List PV) : List PV := cumprodGo (PV.num 1) l

/-- Model of `Series.expanding().max()` (running maximum with
`min_periods = 1`): missing entries repeat the best value so far. -/
def expMaxGo (best : Option PV) : List PV → List PV
  | [] => []
  | x :: r =>
      if x.isNan then (best.getD PV.nan) :: expMaxGo best r
      else
        let b := match best with | none => x | some b0 => PV.max2 b0 x
        b :: expMaxGo (some b) r

/-- Running maximum of a series. -/
def expandingMaxList (l : List PV) : List PV := expMaxGo none l

/-- Return observations of a close series:
`data['Close'].pct_change().dropna()`. -/
def retsOf (close : List PV) : List PV := dropnaList (pctChangeList close)

/-- Cumulative-return path `(1 + returns).cumprod()`. -/
def cumulativeOf (rets : List PV) : List PV :=
  cumprodList (rets.map (fun r => PV.add (PV.num 1) r))

/-- Drawdown series `(cumulative - running_max) / running_max`. -/
def drawdownOf (rets : List PV) : List PV :=
  let cumulative := cumulativeOf rets
  let runningMax := expandingMaxList cumulative
  List.zipWith (fun c m => PV.div (PV.sub c m) m) cumulative runningMax

/-- The `RiskMetrics` dataclass. -/
structure RiskMetrics where
  var95 : PV
  var99 : PV
  expectedShortfall : PV
  maxDrawdown : PV
  sharpeRatio : PV
  sortinoRatio : PV
  calmarRatio : PV
  beta : PV
  alpha : PV
deriving DecidableEq, Repr

/-- The all-zero `RiskMetrics(0, 0, 0, 0, 0, 0, 0, 0, 0)` sentinel. -/
def zeroRiskMetrics : RiskMetrics :=
  ⟨PV.num 0, PV.num 0, PV.num 0, PV.num 0, PV.num 0, PV.num 0, PV.num 0, PV.num 0, PV.num 0⟩

/-- Model of `MarketDataAnalyzer._calculate_risk_metrics` on the close
column of the input frame. -/
def calculateRiskMetrics (sq : ℚ → ℚ) (close : List PV) : RiskMetrics :=
  let returns := retsOf close
  if returns.length < 30 then zeroRiskMetrics
  else
    let var95 := npPercentile 5 returns
    let var99 := npPercentile 1 returns
    let expectedShortfall := seriesMean (returns.filter (fun r => PV.le r var95))
    let maxDrawdown := seriesMin (drawdownOf returns)
    let mean := seriesMean returns
    let stdv := seriesStd sq returns
    let sharpe :=
      if stdv ≠ PV.num 0 then PV.mul (PV.div mean stdv) (PV.num (sq 252)) else PV.num 0
    let negatives := returns.filter (fun r => PV.lt r (PV.num 0))
    let downside :=
      if 0 < negatives.length then
        PV.sqrtWith sq (seriesMean (negatives.map (fun r => PV.mul r r)))
      else PV.num 0
    let sortino :=
      if downside ≠ PV.num 0 then PV.mul (PV.div mean downside) (PV.num (sq 252)) else PV.num 0
    let calmar :=
      if maxDrawdown ≠ PV.num 0 then PV.div (PV.mul mean (PV.num 252)) (PV.abs maxDrawdown)
      else PV.num 0
    ⟨var95, var99, expectedShortfall, maxDrawdown, sharpe, sortino, calmar,
      PV.num 1, PV.mul mean (PV.num 252)⟩

/-- The regime labels of `_detect_market_regime`. -/
inductive RegimeKind where
  | highVolatility | lowVolatility | trending | meanReverting | normal | unknown
deriving DecidableEq, Repr

/-- The `MarketRegime` dataclass. -/
structure MarketRegime where
  regime : RegimeKind
  volatility : PV
  trendStrength : PV
  meanReversion : PV
deriving DecidableEq, Repr

/-- Last `n` entries of a list. -/
def lastN (n : ℕ) (l : List PV) : List PV := l.drop (l.length - n)

/-- Slope of `scipy.stats.linregress(np.arange(len(ys)), ys)`; the
abscissae are the exact integers `0 .. n-1`, so only the ordinates carry
float cells. -/
def linregressSlope (ys : List PV) : PV :=
  let n := ys.length
  let xbar : ℚ := ((n : ℚ) - 1) / 2
  let ybar := PV.div (pvSum ys) (PV.num (n : ℚ))
  let sxy := pvSum (List.zipWith
    (fun k y => PV.mul (PV.num ((k : ℚ) - xbar)) (PV.sub y ybar)) (List.range n) ys)
  let sxx : ℚ := (((List.range n).map (fun k => ((k : ℚ) - xbar) ^ 2)).sum)
  PV.div sxy (PV.num sxx)

/-- Value of `returns.rolling(20).std().iloc[-1]`: the sample standard
deviation of the final `n` observations. -/
def rollingStdLast (sq : ℚ → ℚ) (n : ℕ) (l : List PV) : PV :=
  if l.length < n then PV.nan
  else PV.sqrtWith sq (windowVar n (lastN n l))

/-- Model of `MarketDataAnalyzer._detect_market_regime` on the close
column.  The Hurst-exponent estimator `_calculate_hurst_exponent` works
through `np.log` and `np.polyfit`, which have no exact rational form, so it
is abstracted as the parameter `hurstF` applied to the same argument
`returns[-100:]` the source passes. -/
def detectMarketRegime (sq : ℚ → ℚ) (hurstF : List PV → PV) (close : List PV) : MarketRegime :=
  let returns := retsOf close
  if returns.length < 20 then ⟨RegimeKind.unknown, PV.num 0, PV.num 0, PV.num 0⟩
  else
    let volatility := PV.mul (rollingStdLast sq 20 returns) (PV.num (sq 252))
    let slope := linregressSlope (lastN 20 close)
    let trendStrength :=
      PV.mul (PV.div (PV.abs slope) (close.getLastD PV.nan)) (PV.num 100)
    let meanReversion := hurstF (lastN 100 returns)
    let regime :=
      if PV.gt volatility (PV.num (3 / 10)) then RegimeKind.highVolatility
      else if PV.lt volatility (PV.num (1 / 10)) then RegimeKind.lowVolatility
      else if PV.gt trendStrength (PV.num (1 / 2)) then RegimeKind.trending
      else if PV.lt meanReversion (PV.num (1 / 2)) then RegimeKind.meanReverting
      else RegimeKind.normal
    ⟨regime, volatility, trendStrength, meanReversion⟩

/-- Modelled from the spec: classification precedence, first match wins
(spec section 4.3). -/
def specClassify (volatility trendStrength meanReversion : PV) : RegimeKind :=
  if PV.gt volatility (PV.num (3 / 10)) then RegimeKind.highVolatility
  else if PV.lt volatility (PV.num (1 / 10)) then RegimeKind.lowVolatility
  else if PV.gt trendStrength (PV.num (1 / 2)) then RegimeKind.trending
  else if PV.lt meanReversion (PV.num (1 / 2)) then RegimeKind.meanReverting
  else RegimeKind.normal

/-- The correlation record assembled by `_calculate_correlations` (an
absent record, the empty dict in the source, is `none` at the use site). -/
structure CorrelationResult where
  correlationWithBenchmark : PV
  beta : PV
  rSquared : PV
deriving DecidableEq, Repr

/-- Model of `Series.pct_change()` on an indexed series: the timestamps
are kept, the first value is missing. -/
def pctChangeTS (s : List (ℕ × PV)) : List (ℕ × PV) :=
  match s with
  | [] => []
  | (t, c) :: rest =>
      (t, PV.nan) ::
        List.zipWith (fun p q => (q.1, PV.div (PV.sub q.2 p.2) p.2)) ((t, c) :: rest) rest

/-- Model of `Series.dropna()` on an indexed series. -/
def dropnaTS (s : List (ℕ × PV)) : List (ℕ × PV) := s.filter (fun p => !p.2.isNan)

/-- Pearson correlation of two aligned value lists as computed by
`Series.corr` over pairwise complete observations, with the square roots
of the centred sums of squares taken by the abstract `sq`; `nan` with
fewer than two complete pairs. -/
def pearsonCorr (sq : ℚ → ℚ) (a b : List PV) : PV :=
  let pairs := (List.zip a b).filter (fun p => !p.1.isNan && !p.2.isNan)
  let n := pairs.length
  if n < 2 then PV.nan
  else
    let xs := pairs.map Prod.fst
    let ys := pairs.map Prod.snd
    let mx := PV.div (pvSum xs) (PV.num (n : ℚ))
    let my := PV.div (pvSum ys) (PV.num (n : ℚ))
    let sxy := pvSum ((List.zip xs ys).map (fun p => PV.mul (PV.sub p.1 mx) (PV.sub p.2 my)))
    let sxx := pvSum (xs.map (fun x => PV.mul (PV.sub x mx) (PV.sub x mx)))
    let syy := pvSum (ys.map (fun y => PV.mul (PV.sub y my) (PV.sub y my)))
    PV.div sxy (PV.mul (PV.sqrtWith sq sxx) (PV.sqrtWith sq syy))

/-- Sample covariance of two aligned value lists as computed by
`Series.cov` over pairwise complete observations (`ddof = 1`). -/
def seriesCov (a b : List PV) : PV :=
  let pairs := (List.zip a b).filter (fun p => !p.1.isNan && !p.2.isNan)
  let n := pairs.length
  if n < 2 then PV.nan
  else
    let xs := pairs.map Prod.fst
    let ys := pairs.map Prod.snd
    let mx := PV.div (pvSum xs) (PV.num (n : ℚ))
    let my := PV.div (pvSum ys) (PV.num (n : ℚ))
    PV.div (pvSum ((List.zip xs ys).map (fun p => PV.mul (PV.sub p.1 mx) (PV.sub p.2 my))))
      (PV.num ((n : ℚ) - 1))

/-- Model of `MarketDataAnalyzer._calculate_beta`. -/
def calcBeta (sq : ℚ → ℚ) (returns benchmarkReturns : List PV) : PV :=
  if returns.length < 2 ∨ seriesStd sq benchmarkReturns = PV.num 0 then PV.num 1
  else PV.div (seriesCov returns benchmarkReturns) (seriesVar benchmarkReturns)

/-- The overlap of return timestamps used by `_calculate_correlations`:
`returns.index.intersection(benchmark_returns.index)` for the two
`pct_change().dropna()` series. -/
def commonDatesOf (data benchmark : List (ℕ × PV)) : List ℕ :=
  let returns := dropnaTS (pctChangeTS data)
  let benchmarkReturns := dropnaTS (pctChangeTS benchmark)
  (returns.map Prod.fst).filter (fun t => (benchmarkReturns.map Prod.fst).contains t)

/-- The asset returns aligned to the common dates,
`returns[common_dates]`. -/
def alignedReturnsOf (data benchmark : List (ℕ × PV)) : List PV :=
  ((dropnaTS (pctChangeTS data)).filter
    (fun p => (commonDatesOf data benchmark).contains p.1)).map Prod.snd

/-- The benchmark returns aligned to the common dates,
`benchmark_returns[common_dates]`. -/
def alignedBenchmarkOf (data benchmark : List (ℕ × PV)) : List PV :=
  ((dropnaTS (pctChangeTS benchmark)).filter
    (fun p => (commonDatesOf data benchmark).contains p.1)).map Prod.snd

/-- Model of `MarketDataAnalyzer._calculate_correlations` over the two
close series with their timestamps; the empty dict of the source is
`none`. -/
def calcCorrelations (sq : ℚ → ℚ) (data benchmark : List (ℕ × PV)) :
    Option CorrelationResult :=
  if benchmark = [] ∨ data.length ≠ benchmark.length then none
  else
    if (commonDatesOf data benchmark).length < 10 then none
    else
      let correlation :=
        pearsonCorr sq (alignedReturnsOf data benchmark) (alignedBenchmarkOf data benchmark)
      some ⟨correlation,
        calcBeta sq (alignedReturnsOf data benchmark) (alignedBenchmarkOf data benchmark),
        PV.mul correlation correlation⟩

/-- The `portfolio_analysis` record assembled by `_analyze_portfolio`
(`correlation_matrix` as a dense row-major matrix). -/
structure PortfolioSnapshot where
  correlationMatrix : List (List PV)
  pcaExplainedVariance : List PV
  portfolioVolatility : PV
  diversificationRatio : PV

/-- Model of `MarketDataAnalyzer._calculate_diversification_ratio`:
`1 / (avg_corr * sqrt(n_assets))` over the mean of the strict upper
triangle of the correlation matrix, with no guard against a zero or
negative mean correlation. -/
def calcDiversificationRatio (sq : ℚ → ℚ) (corrM : List (List PV)) : PV :=
  let nAssets := corrM.length
  if nAssets = 1 then PV.num 1
  else
    let upper := (List.flatten ((List.range nAssets).map (fun j =>
      ((List.range nAssets).filter (fun k => j < k)).map (fun k =>
        (corrM.getD j []).getD k PV.nan))))
    let avgCorr :=
      if upper.length = 0 then PV.nan
      else PV.div (pvSum upper) (PV.num (upper.length : ℚ))
    PV.div (PV.num 1) (PV.mul avgCorr (PV.num (sq (nAssets : ℚ))))

/-- Model of `MarketDataAnalyzer._analyze_portfolio` over the close series
of the valid symbols.  The principal-component step runs through
`StandardScaler` and `PCA`, whose eigen-decomposition has no exact
rational form, so it is abstracted as the parameter `pcaF` applied to the
aligned return rows. -/
def analyzePortfolio (sq : ℚ → ℚ) (pcaF : List (List PV) → List PV)
    (symCloses : List (List PV)) : Option PortfolioSnapshot :=
  if symCloses = [] then none
  else
    let cols := symCloses.map pctChangeList
    let m := (cols.map List.length).foldl max 0
    let rows := (List.range m).map (fun i => cols.map (fun c => c.getD i PV.nan))
    let cleanRows := rows.filter (fun r => !(r.any PV.isNan))
    let nSym := symCloses.length
    let colV := fun j => cleanRows.map (fun r => r.getD j PV.nan)
    let corrM := (List.range nSym).map (fun j =>
      (List.range nSym).map (fun k => pearsonCorr sq (colV j) (colV k)))
    let portfolioReturns :=
      cleanRows.map (fun r => pvSum (r.map (fun x => PV.mul x (PV.num (1 / (nSym : ℚ))))))
    some
      { correlationMatrix := corrM
        pcaExplainedVariance := pcaF cleanRows
        portfolioVolatility := PV.mul (seriesStd sq portfolioReturns) (PV.num (sq 252))
        diversificationRatio := calcDiversificationRatio sq corrM }

/-- Builds a column from a finite list of cells (rows past the end are
missing). -/
def colOfList (l : List PV) : Col := fun i => l.getD i PV.nan

namespace PV

theorem add_nan_left (b : PV) : add nan b = nan := by cases b <;> rfl

theorem add_nan_right (a : PV) : add a nan = nan := by cases a <;> rfl

theorem mul_nan_left (b : PV) : mul nan b = nan := by cases b <;> rfl

theorem mul_nan_right (a : PV) : mul a nan = nan := by cases a <;> rfl

theorem div_nan_left (b : PV) : div nan b = nan := by cases b <;> rfl

theorem div_nan_right (a : PV) : div a nan = nan := by cases a <;> rfl

theorem sub_nan_left (b : PV) : sub nan b = nan := by cases b <;> rfl

theorem sub_nan_right (a : PV) : sub a nan = nan := by cases a <;> rfl

theorem add_num_num (a b : ℚ) : add (num a) (num b) = num (a + b) := rfl

theorem sub_num_num (a b : ℚ) : sub (num a) (num b) = num (a - b) := by
  show add (num a) (neg (num b)) = num (a - b)
  rw [neg, add_num_num, sub_eq_add_neg]

theorem mul_num_num (a b : ℚ) : mul (num a) (num b) = num (a * b) := rfl

/-- Extracting the operands from a finite sum: IEEE addition returns a
finite value only from two finite operands. -/
theorem add_eq_num {a b : PV} {c : ℚ} (h : add a b = num c) :
    ∃ x y : ℚ, a = num x ∧ b = num y ∧ c = x + y := by
  cases a <;> cases b <;> simp only [add] at h
  all_goals try exact PV.noConfusion h
  next x y =>
    rw [PV.num.injEq] at h
    exact ⟨x, y, rfl, rfl, h.symm⟩

/-- Extracting the operands from a finite product. -/
theorem mul_eq_num {a b : PV} {c : ℚ} (h : mul a b = num c) :
    ∃ x y : ℚ, a = num x ∧ b = num y ∧ c = x * y := by
  cases a <;> cases b <;> simp only [mul] at h
  all_goals try exact PV.noConfusion h
  all_goals try (split at h <;> (try split at h) <;> exact PV.noConfusion h)
  next x y =>
    rw [PV.num.injEq] at h
    exact ⟨x, y, rfl, rfl, h.symm⟩

/-- Extracting the operands from a finite difference. -/
theorem sub_eq_num {a b : PV} {c : ℚ} (h : sub a b = num c) :
    ∃ x y : ℚ, a = num x ∧ b = num y ∧ c = x - y := by
  obtain ⟨x, y, ha, hb, he⟩ := add_eq_num h
  cases b <;> simp [neg] at hb
  subst hb
  exact ⟨x, _, ha, rfl, by rw [he]; ring⟩

/-- A finite square root comes from a nonnegative finite radicand. -/
theorem sqrtWith_eq_num {sq : ℚ → ℚ} {v : PV} {s : ℚ}
    (h : sqrtWith sq v = num s) : ∃ q : ℚ, v = num q ∧ 0 ≤ q ∧ s = sq q := by
  cases v <;> simp only [sqrtWith] at h
  all_goals try exact PV.noConfusion h
  next q =>
    split at h
    · exact PV.noConfusion h
    next hq =>
      rw [PV.num.injEq] at h
      exact ⟨q, rfl, not_lt.mp hq, h.symm⟩

theorem le_num_num {a b : ℚ} : le (num a) (num b) = true ↔ a ≤ b := by
  simp [le]

theorem lt_num_num {a b : ℚ} : lt (num a) (num b) = true ↔ a < b := by
  simp [lt]

end PV

/-- Helper: dropping a leading missing entry. -/
theorem dropnaList_nan_cons (l : List PV) : dropnaList (PV.nan :: l) = dropnaList l := by
  simp [dropnaList, PV.isNan]

/-- Helper: the return series of a close series is at least one shorter
than the series itself. -/
theorem retsOf_length_le (close : List PV) :
    (retsOf close).length + 1 ≤ close.length ∨ close = [] := by
  cases close with
  | nil => exact Or.inr rfl
  | cons c rest =>
      left
      have h1 : retsOf (c :: rest) =
          dropnaList (List.zipWith (fun prev cur => PV.div (PV.sub cur prev) prev) (c :: rest) rest) := by
        simp [retsOf, pctChangeList, dropnaList_nan_cons]
      have h2 := List.length_filter_le (fun v => !v.isNan)
        (List.zipWith (fun prev cur => PV.div (PV.sub cur prev) prev) (c :: rest) rest)
      have h3 : (List.zipWith (fun prev cur => PV.div (PV.sub cur prev) prev) (c :: rest) rest).length
          = rest.length := by
        simp [List.length_zipWith]
      have h4 : (c :: rest).length = rest.length + 1 := rfl
      rw [h1]
      simp only [dropnaList]
      omega

/-- C4.  A series whose percentage-change return sequence (first entry
dropped) has fewer than 30 observations makes `_calculate_risk_metrics`
return the all-zero `RiskMetrics` without raising. -/
theorem spec_c4 (sq : ℚ → ℚ) (close : List PV) (h : close.length ≤ 30) :
    calculateRiskMetrics sq close = zeroRiskMetrics := by
  have hr : (retsOf close).length < 30 := by
    rcases retsOf_length_le close with h1 | h1
    · omega
    · subst h1; simp [retsOf, pctChangeList, dropnaList]
  simp [calculateRiskMetrics, hr]

/-- Witness for C4 at a two-bar series. -/
theorem spec_c4_witness :
    ([PV.num 1, PV.num 2].length ≤ 30) ∧
      calculateRiskMetrics (fun q => q) [PV.num 1, PV.num 2] = zeroRiskMetrics :=
  ⟨by decide, spec_c4 (fun q => q) [PV.num 1, PV.num 2] (by decide)⟩

theorem PV.isNum_iff {x : PV} : x.isNum = true ↔ ∃ q : ℚ, x = PV.num q := by
  cases x <;> simp [PV.isNum]

theorem PV.add_isNum {a b : PV} (ha : a.isNum = true) (hb : b.isNum = true) :
    (PV.add a b).isNum = true := by
  obtain ⟨x, hx⟩ := PV.isNum_iff.mp ha
  obtain ⟨y, hy⟩ := PV.isNum_iff.mp hb
  rw [hx, hy, PV.add_num_num]
  rfl

/-- Helper: every OBV summand is missing-free. -/
theorem obvTerm_not_nan (close volume : Col) (i : ℕ) :
    (obvTerm close volume i).isNan = false := by
  unfold obvTerm
  dsimp only
  split
  · rfl
  next h => simpa using h

/-- Helper: with finite closes and volumes every OBV summand is finite. -/
theorem obvTerm_isNum (close volume : Col) (n : ℕ)
    (hc : ∀ i, i < n → (close i).isNum = true)
    (hv : ∀ i, i < n → (volume i).isNum = true)
    (i : ℕ) (hi : i < n) : (obvTerm close volume i).isNum = true := by
  unfold obvTerm
  dsimp only
  split
  · rfl
  next h =>
    rcases Nat.eq_zero_or_pos i with h0 | hpos
    · exfalso
      apply h
      subst h0
      simp [diffCol, PV.sign, PV.mul_nan_left, PV.isNan]
    · obtain ⟨qc, hqc⟩ := PV.isNum_iff.mp (hc i hi)
      obtain ⟨qp, hqp⟩ := PV.isNum_iff.mp (hc (i - 1) (by omega))
      obtain ⟨qv, hqv⟩ := PV.isNum_iff.mp (hv i hi)
      have hd : diffCol close i = PV.num (qc - qp) := by
        simp [diffCol, Nat.pos_iff_ne_zero.mp hpos, hqc, hqp, PV.sub_num_num]
      simp [hd, PV.sign, hqv, PV.mul_num_num, PV.isNum]

/-- C10.  With no missing closes or volumes the OBV column is defined on
every bar, and the first bar is `0` because the undefined first
close-to-close change is filled with zero before cumulating. -/
theorem spec_c10 (close volume : Col) (n : ℕ) (_hn : 0 < n)
    (hc : ∀ i, i < n → (close i).isNum = true)
    (hv : ∀ i, i < n → (volume i).isNum = true) :
    (∀ i, i < n → (obvCol close volume i).isNum = true) ∧
      obvCol close volume 0 = PV.num 0 := by
  have hacc : ∀ i, i ≤ n → (cumAccSum (obvTerm close volume) i).isNum = true := by
    intro i
    induction i with
    | zero => intro _; rfl
    | succ k ih =>
        intro hk
        have hnum := obvTerm_isNum close volume n hc hv k (by omega)
        simp only [cumAccSum, obvTerm_not_nan close volume k, Bool.false_eq_true, if_false]
        exact PV.add_isNum (ih (by omega)) hnum
  constructor
  · intro i hi
    simp only [obvCol, cumsumCol, obvTerm_not_nan close volume i, Bool.false_eq_true, if_false]
    exact PV.add_isNum (hacc i (by omega)) (obvTerm_isNum close volume n hc hv i hi)
  · have ht0 : obvTerm close volume 0 = PV.num 0 := by
      simp [obvTerm, diffCol, PV.sign, PV.mul_nan_left, PV.isNan]
    simp [obvCol, cumsumCol, ht0, cumAccSum, PV.isNan, PV.add_num_num]

/-- Witness for C10 on a concrete two-bar frame. -/
theorem spec_c10_witness :
    (∀ i, i < 2 →
      (obvCol (colOfList [PV.num 1, PV.num 2]) (colOfList [PV.num 5, PV.num 7]) i).isNum = true) ∧
      obvCol (colOfList [PV.num 1, PV.num 2]) (colOfList [PV.num 5, PV.num 7]) 0 = PV.num 0 :=
  spec_c10 (colOfList [PV.num 1, PV.num 2]) (colOfList [PV.num 5, PV.num 7]) 2
    (by decide) (by decide) (by decide)

/-- C6.  With at least 20 return observations the detected regime is the
first-match classification of the computed volatility, trend strength and
mean reversion; with fewer it is `UNKNOWN` with all fields zero. -/
theorem spec_c6 (sq : ℚ → ℚ) (hurstF : List PV → PV) (close : List PV) :
    (20 ≤ (retsOf close).length →
      (detectMarketRegime sq hurstF close).regime =
        specClassify (detectMarketRegime sq hurstF close).volatility
          (detectMarketRegime sq hurstF close).trendStrength
          (detectMarketRegime sq hurstF close).meanReversion) ∧
    ((retsOf close).length < 20 →
      detectMarketRegime sq hurstF close =
        ⟨RegimeKind.unknown, PV.num 0, PV.num 0, PV.num 0⟩) := by
  constructor
  · intro h
    have hnot : ¬ (retsOf close).length < 20 := by omega
    simp only [detectMarketRegime, hnot, if_false, specClassify]
  · intro h
    simp only [detectMarketRegime, h, if_true]

/-- Witness for C6: a 21-bar constant series classifies by the first-match
chain (here `LOW_VOLATILITY`), and a 2-bar series is `UNKNOWN` with zeroed
fields. -/
theorem spec_c6_witness :
    ((detectMarketRegime (fun _ => 0) (fun _ => PV.num (7 / 10))
        ((List.range 21).map (fun _ => PV.num 5))).regime =
      specClassify
        (detectMarketRegime (fun _ => 0) (fun _ => PV.num (7 / 10))
          ((List.range 21).map (fun _ => PV.num 5))).volatility
        (detectMarketRegime (fun _ => 0) (fun _ => PV.num (7 / 10))
          ((List.range 21).map (fun _ => PV.num 5))).trendStrength
        (detectMarketRegime (fun _ => 0) (fun _ => PV.num (7 / 10))
          ((List.range 21).map (fun _ => PV.num 5))).meanReversion) ∧
    detectMarketRegime (fun q => q) (fun _ => PV.num (7 / 10)) [PV.num 5, PV.num 6] =
      ⟨RegimeKind.unknown, PV.num 0, PV.num 0, PV.num 0⟩ :=
  ⟨(spec_c6 (fun _ => 0) (fun _ => PV.num (7 / 10)) _).1 (by decide),
    (spec_c6 (fun q => q) (fun _ => PV.num (7 / 10)) _).2 (by decide)⟩

/-- C2 (amended).  The correlation record is absent exactly when the
benchmark frame is empty, the two frames differ in length, or fewer than
10 overlapping return observations remain; otherwise its fields are the
Pearson correlation of the aligned returns, the covariance/variance beta
with its fallback to `1.0`, and the squared correlation. -/
theorem spec_c2 (sq : ℚ → ℚ) (data benchmark : List (ℕ × PV)) :
    (calcCorrelations sq data benchmark = none ↔
      benchmark = [] ∨ data.length ≠ benchmark.length ∨
        (commonDatesOf data benchmark).length < 10) ∧
    ∀ res, calcCorrelations sq data benchmark = some res →
      res.correlationWithBenchmark =
        pearsonCorr sq (alignedReturnsOf data benchmark) (alignedBenchmarkOf data benchmark) ∧
      res.beta =
        (if (alignedReturnsOf data benchmark).length < 2 ∨
            seriesStd sq (alignedBenchmarkOf data benchmark) = PV.num 0 then PV.num 1
          else
            PV.div (seriesCov (alignedReturnsOf data benchmark) (alignedBenchmarkOf data benchmark))
              (seriesVar (alignedBenchmarkOf data benchmark))) ∧
      res.rSquared = PV.mul res.correlationWithBenchmark res.correlationWithBenchmark := by
  constructor
  · unfold calcCorrelations
    split
    next h => simp only [eq_self_iff_true, true_iff]; tauto
    next h =>
      split
      next h2 => simp only [eq_self_iff_true, true_iff]; tauto
      next h2 =>
        constructor
        · intro hx
          exact absurd hx (by simp)
        · intro hx
          exact absurd hx (by tauto)
  · intro res h
    unfold calcCorrelations at h
    split at h
    · exact absurd h (by simp)
    · split at h
      · exact absurd h (by simp)
      · rw [Option.some.injEq] at h
        subst h
        exact ⟨rfl, by simp [calcBeta], rfl⟩


/-- A 12-bar asset series used to exercise the correlation gate. -/
def c2data : List (ℕ × PV) :=
  [(1, PV.num 1), (2, PV.num 2), (3, PV.num 3), (4, PV.num 4), (5, PV.num 5), (6, PV.num 6),
    (7, PV.num 7), (8, PV.num 8), (9, PV.num 9), (10, PV.num 10), (11, PV.num 11),
    (12, PV.num 12)]

/-- A 13-bar benchmark series sharing 11 return timestamps with
`c2data`. -/
def c2bench : List (ℕ × PV) :=
  [(1, PV.num 2), (2, PV.num 3), (3, PV.num 4), (4, PV.num 5), (5, PV.num 6), (6, PV.num 7),
    (7, PV.num 8), (8, PV.num 9), (9, PV.num 10), (10, PV.num 11), (11, PV.num 12),
    (12, PV.num 13), (13, PV.num 14)]

/-- A 12-bar doubling series used as both asset and benchmark. -/
def c2same : List (ℕ × PV) :=
  [(0, PV.num 1), (1, PV.num 2), (2, PV.num 4), (3, PV.num 8), (4, PV.num 16), (5, PV.num 32),
    (6, PV.num 64), (7, PV.num 128), (8, PV.num 256), (9, PV.num 512), (10, PV.num 1024),
    (11, PV.num 2048)]

/-- Counterexample to C2 as stated: `c2data` and `c2bench` share 11
overlapping return observations (at least 10), yet
`_calculate_correlations` returns the empty record because the raw frames
differ in length (12 vs 13 rows). -/
theorem spec_c2_counterexample :
    calcCorrelations (fun q => q) c2data c2bench = none ∧
      10 ≤ (commonDatesOf c2data c2bench).length := by
  decide

attribute [local semireducible] Rat.add Rat.sub Rat.mul Rat.inv in
/-- Witness for C2 on two equal 12-bar series with 11 overlapping return
observations. -/
theorem spec_c2_witness :
    (⟨PV.nan, PV.num 1, PV.nan⟩ : CorrelationResult).correlationWithBenchmark =
      pearsonCorr (fun q => q) (alignedReturnsOf c2same c2same)
        (alignedBenchmarkOf c2same c2same) ∧
    (⟨PV.nan, PV.num 1, PV.nan⟩ : CorrelationResult).beta =
      (if (alignedReturnsOf c2same c2same).length < 2 ∨
          seriesStd (fun q => q) (alignedBenchmarkOf c2same c2same) = PV.num 0
        then PV.num 1
        else
          PV.div (seriesCov (alignedReturnsOf c2same c2same) (alignedBenchmarkOf c2same c2same))
            (seriesVar (alignedBenchmarkOf c2same c2same))) ∧
    (⟨PV.nan, PV.num 1, PV.nan⟩ : CorrelationResult).rSquared =
      PV.mul (⟨PV.nan, PV.num 1, PV.nan⟩ : CorrelationResult).correlationWithBenchmark
        (⟨PV.nan, PV.num 1, PV.nan⟩ : CorrelationResult).correlationWithBenchmark :=
  (spec_c2 (fun q => q) c2same c2same).2 ⟨PV.nan, PV.num 1, PV.nan⟩ (by decide)

/-- A close series with returns `+10%, -10%, +10%, -10%`. -/
def c3closeA : List PV :=
  [PV.num 100, PV.num 110, PV.num 99, PV.num (1089 / 10), PV.num (9801 / 100)]

/-- A close series with returns `+10%, +10%, -10%, -10%`, chosen so that
its returns have exactly zero sample correlation with those of
`c3closeA`. -/
def c3closeB : List PV :=
  [PV.num 100, PV.num 110, PV.num 121, PV.num (1089 / 10), PV.num (9801 / 100)]

attribute [local semireducible] Rat.add Rat.sub Rat.mul Rat.inv in
/-- C3.  Evaluation of the code at the failing input: a two-symbol
portfolio whose returns have zero mean pairwise correlation.  The
unguarded `1 / (avg_corr * sqrt(n_assets))` division makes the
diversification ratio `+∞`, which is propagated into the portfolio
output instead of the explicit sentinel the specification requires. -/
theorem spec_c3_codebug :
    (analyzePortfolio (fun q => q) (fun _ => []) [c3closeA, c3closeB]).map
        (fun s => s.diversificationRatio) = some PV.pinf := by
  decide

/-- Helper: a fold of `min2` over finite cells starting from a finite cell
is finite and bounds every member from below. -/
theorem foldl_min2_num (l : List PV) (hl : ∀ x ∈ l, x.isNum = true) :
    ∀ a : ℚ, ∃ m : ℚ, List.foldl PV.min2 (PV.num a) l = PV.num m ∧ m ≤ a ∧
      ∀ q : ℚ, PV.num q ∈ l → m ≤ q := by
  induction l with
  | nil => exact fun a => ⟨a, rfl, le_refl a, by simp⟩
  | cons x r ih =>
      intro a
      obtain ⟨b, hb⟩ := PV.isNum_iff.mp (hl x (by simp))
      subst hb
      obtain ⟨m, hm, hma, hmem⟩ := ih (fun y hy => hl y (by simp [hy])) (min a b)
      refine ⟨m, ?_, le_trans hma (min_le_left a b), ?_⟩
      · simpa [PV.min2] using hm
      · intro q hq
        rcases List.mem_cons.mp hq with h1 | h1
        · have hqb : q = b := by
            injection h1
          exact hqb ▸ le_trans hma (min_le_right a b)
        · exact hmem q h1

/-- Helper: a fold of `max2` over finite cells starting from a finite cell
is finite and bounds every member from above. -/
theorem foldl_max2_num (l : List PV) (hl : ∀ x ∈ l, x.isNum = true) :
    ∀ a : ℚ, ∃ m : ℚ, List.foldl PV.max2 (PV.num a) l = PV.num m ∧ a ≤ m ∧
      ∀ q : ℚ, PV.num q ∈ l → q ≤ m := by
  induction l with
  | nil => exact fun a => ⟨a, rfl, le_refl a, by simp⟩
  | cons x r ih =>
      intro a
      obtain ⟨b, hb⟩ := PV.isNum_iff.mp (hl x (by simp))
      subst hb
      obtain ⟨m, hm, hma, hmem⟩ := ih (fun y hy => hl y (by simp [hy])) (max a b)
      refine ⟨m, ?_, le_trans (le_max_left a b) hma, ?_⟩
      · simpa [PV.max2] using hm
      · intro q hq
        rcases List.mem_cons.mp hq with h1 | h1
        · have hqb : q = b := by
            injection h1
          exact hqb ▸ le_trans (le_max_right a b) hma
        · exact hmem q h1

/-- Helper: folding `min2` from `+∞` over a nonempty finite list. -/
theorem foldl_min2_pinf (l : List PV) (hl : ∀ x ∈ l, x.isNum = true) (hne : l ≠ []) :
    ∃ m : ℚ, List.foldl PV.min2 PV.pinf l = PV.num m ∧
      ∀ q : ℚ, PV.num q ∈ l → m ≤ q := by
  cases l with
  | nil => exact absurd rfl hne
  | cons x r =>
      obtain ⟨b, hb⟩ := PV.isNum_iff.mp (hl x (by simp))
      subst hb
      obtain ⟨m, hm, hmb, hmem⟩ := foldl_min2_num r (fun y hy => hl y (by simp [hy])) b
      refine ⟨m, ?_, ?_⟩
      · simpa [PV.min2] using hm
      · intro q hq
        rcases List.mem_cons.mp hq with h1 | h1
        · have hqb : q = b := by injection h1
          exact hqb ▸ hmb
        · exact hmem q h1

/-- Helper: folding `max2` from `-∞` over a nonempty finite list. -/
theorem foldl_max2_ninf (l : List PV) (hl : ∀ x ∈ l, x.isNum = true) (hne : l ≠ []) :
    ∃ m : ℚ, List.foldl PV.max2 PV.ninf l = PV.num m ∧
      ∀ q : ℚ, PV.num q ∈ l → q ≤ m := by
  cases l with
  | nil => exact absurd rfl hne
  | cons x r =>
      obtain ⟨b, hb⟩ := PV.isNum_iff.mp (hl x (by simp))
      subst hb
      obtain ⟨m, hm, hmb, hmem⟩ := foldl_max2_num r (fun y hy => hl y (by simp [hy])) b
      refine ⟨m, ?_, ?_⟩
      · simpa [PV.max2] using hm
      · intro q hq
        rcases List.mem_cons.mp hq with h1 | h1
        · have hqb : q = b := by injection h1
          exact hqb ▸ hmb
        · exact hmem q h1

/-- Helper: the current row belongs to its own trailing window. -/
theorem mem_windowList_self (c : Col) (k i : ℕ) (hk : 1 ≤ k) (hw : k ≤ i + 1) :
    c i ∈ windowList c k i := by
  unfold windowList
  refine List.mem_map.mpr ⟨k - 1, List.mem_range.mpr (by omega), ?_⟩
  have h : i + 1 - k + (k - 1) = i := by omega
  rw [h]

/-- C9.  On bars where the full stochastic window exists and the rolling
high strictly exceeds the rolling low, and the bar satisfies
`low ≤ close ≤ high`, the raw stochastic oscillator lies in `[0, 100]`. -/
theorem spec_c9 (k : ℕ) (high low close : Col) (i : ℕ)
    (hk : 1 ≤ k) (hw : k ≤ i + 1)
    (hhnum : ∀ j, j < k → (high (i + 1 - k + j)).isNum = true)
    (hlnum : ∀ j, j < k → (low (i + 1 - k + j)).isNum = true)
    (hcnum : (close i).isNum = true)
    (hlc : PV.le (low i) (close i) = true)
    (hch : PV.le (close i) (high i) = true)
    (hgt : PV.lt (rollingMin k low i) (rollingMax k high i) = true) :
    ∃ q : ℚ, stochKCol k high low close i = PV.num q ∧ 0 ≤ q ∧ q ≤ 100 := by
  have hwinl : ∀ x ∈ windowList low k i, x.isNum = true := by
    intro x hx
    obtain ⟨j, hj, he⟩ := List.mem_map.mp hx
    rw [← he]
    exact hlnum j (List.mem_range.mp hj)
  have hwinh : ∀ x ∈ windowList high k i, x.isNum = true := by
    intro x hx
    obtain ⟨j, hj, he⟩ := List.mem_map.mp hx
    rw [← he]
    exact hhnum j (List.mem_range.mp hj)
  have hnel : windowList low k i ≠ [] := by
    intro hcon
    have := congrArg List.length hcon
    simp [windowList] at this
    omega
  have hneh : windowList high k i ≠ [] := by
    intro hcon
    have := congrArg List.length hcon
    simp [windowList] at this
    omega
  obtain ⟨lo, hlo, hlomem⟩ := foldl_min2_pinf _ hwinl hnel
  obtain ⟨hib, hhi, hhimem⟩ := foldl_max2_ninf _ hwinh hneh
  have hrmin : rollingMin k low i = PV.num lo := by
    simp only [rollingMin, rollingAgg, if_pos (And.intro hk hw)]
    exact hlo
  have hrmax : rollingMax k high i = PV.num hib := by
    simp only [rollingMax, rollingAgg, if_pos (And.intro hk hw)]
    exact hhi
  obtain ⟨qc, hqc⟩ := PV.isNum_iff.mp hcnum
  have hlowiNum : (low i).isNum = true := by
    have h := hlnum (k - 1) (by omega)
    rwa [show i + 1 - k + (k - 1) = i by omega] at h
  have hhighiNum : (high i).isNum = true := by
    have h := hhnum (k - 1) (by omega)
    rwa [show i + 1 - k + (k - 1) = i by omega] at h
  obtain ⟨ql, hql⟩ := PV.isNum_iff.mp hlowiNum
  obtain ⟨qh, hqh⟩ := PV.isNum_iff.mp hhighiNum
  have hloql : lo ≤ ql := by
    apply hlomem
    rw [← hql]
    exact mem_windowList_self low k i hk hw
  have hqhhib : qh ≤ hib := by
    apply hhimem
    rw [← hqh]
    exact mem_windowList_self high k i hk hw
  have hqlqc : ql ≤ qc := by
    rw [hql, hqc, PV.le_num_num] at hlc
    exact hlc
  have hqcqh : qc ≤ qh := by
    rw [hqc, hqh, PV.le_num_num] at hch
    exact hch
  have hlohib : lo < hib := by
    rw [hrmin, hrmax] at hgt
    simpa [PV.lt] using hgt
  have hpos : 0 < hib - lo := by linarith
  have hdz : hib - lo ≠ 0 := by linarith
  refine ⟨100 * ((qc - lo) / (hib - lo)), ?_, ?_, ?_⟩
  · unfold stochKCol
    rw [hqc, hrmin, hrmax, PV.sub_num_num, PV.sub_num_num]
    simp [PV.div, hdz, PV.mul_num_num]
  · have hr0 : 0 ≤ (qc - lo) / (hib - lo) := by
      apply div_nonneg (by linarith) (by linarith)
    linarith
  · have hr1 : (qc - lo) / (hib - lo) ≤ 1 := by
      rw [div_le_one hpos]
      linarith
    linarith

attribute [local semireducible] Rat.add Rat.sub Rat.mul Rat.inv in
/-- Witness for C9 on a one-bar window. -/
theorem spec_c9_witness :
    ∃ q : ℚ,
      stochKCol 1 (colOfList [PV.num 4]) (colOfList [PV.num 2]) (colOfList [PV.num 3]) 0 =
        PV.num q ∧ 0 ≤ q ∧ q ≤ 100 :=
  spec_c9 1 (colOfList [PV.num 4]) (colOfList [PV.num 2]) (colOfList [PV.num 3]) 0
    (by decide) (by decide) (by decide) (by decide) (by decide) (by decide) (by decide)
    (by decide)

/-- Helper: looking up the name just assigned. -/
theorem find?_setColList_eq (l : List (ColName × Col)) (n : ColName) (c : Col) :
    (setColList l n c).find? (fun p => decide (p.1 = n)) = some (n, c) := by
  induction l with
  | nil => simp [setColList]
  | cons p r ih =>
      by_cases hp : p.1 = n
      · simp [setColList, hp]
      · simp [setColList, hp, List.find?, ih]

/-- Helper: assigning one name leaves lookups of any other name
unchanged. -/
theorem find?_setColList_ne (l : List (ColName × Col)) (n m : ColName) (c : Col)
    (h : ¬ n = m) :
    (setColList l n c).find? (fun p => decide (p.1 = m)) =
      l.find? (fun p => decide (p.1 = m)) := by
  induction l with
  | nil => simp [setColList, h]
  | cons p r ih =>
      simp only [setColList]
      by_cases hp : p.1 = n
      · rw [if_pos hp]
        rw [List.find?_cons_of_neg _ (by simp [h]),
          List.find?_cons_of_neg _ (by simp [hp, h])]
      · rw [if_neg hp]
        by_cases hm : p.1 = m
        · rw [List.find?_cons_of_pos _ (by simp [hm]),
            List.find?_cons_of_pos _ (by simp [hm])]
        · rw [List.find?_cons_of_neg _ (by simp [hm]),
            List.find?_cons_of_neg _ (by simp [hm]), ih]

theorem getCol?_setCol_eq (df : DF) (n : ColName) (c : Col) :
    (df.setCol n c).getCol? n = some c := by
  simp [DF.getCol?, DF.setCol, find?_setColList_eq]

theorem getCol?_setCol_ne (df : DF) (n m : ColName) (c : Col) (h : ¬ n = m) :
    (df.setCol n c).getCol? m = df.getCol? m := by
  simp [DF.getCol?, DF.setCol, find?_setColList_ne _ _ _ _ h]

theorem getColD_setCol_eq (df : DF) (n : ColName) (c : Col) :
    (df.setCol n c).getColD n = c := by
  simp [DF.getColD, getCol?_setCol_eq]

theorem getColD_setCol_ne (df : DF) (n m : ColName) (c : Col) (h : ¬ n = m) :
    (df.setCol n c).getColD m = df.getColD m := by
  simp [DF.getColD, getCol?_setCol_ne _ _ _ _ h]

/-- C7.  Wherever the three Bollinger columns are all defined and the band
width parameter is nonnegative, `BB_Lower ≤ BB_Middle ≤ BB_Upper` (using
of the abstract square root only that it is nonnegative on nonnegative
arguments, as the float square root is). -/
theorem spec_c7 (sq : ℚ → ℚ) (hsq : ∀ q : ℚ, 0 ≤ q → 0 ≤ sq q)
    (cfg : IndicatorConfig) (hbb : 0 ≤ cfg.bbStd) (df : DF) (i : ℕ)
    (u m l : ℚ)
    (hu : (calcBollingerBands sq cfg df).getColD ColName.bbUpper i = PV.num u)
    (hm : (calcBollingerBands sq cfg df).getColD ColName.bbMiddle i = PV.num m)
    (hl : (calcBollingerBands sq cfg df).getColD ColName.bbLower i = PV.num l) :
    l ≤ m ∧ m ≤ u := by
  have hU : ∀ j, (calcBollingerBands sq cfg df).getColD ColName.bbUpper j =
      PV.add (rollingMean cfg.bbPeriod (df.getColD ColName.bClose) j)
        (PV.mul (rollingStd sq cfg.bbPeriod (df.getColD ColName.bClose) j)
          (PV.num cfg.bbStd)) := by
    intro j
    simp only [calcBollingerBands]
    rw [getColD_setCol_ne _ _ _ _ (by decide), getColD_setCol_ne _ _ _ _ (by decide),
      getColD_setCol_ne _ _ _ _ (by decide), getColD_setCol_ne _ _ _ _ (by decide),
      getColD_setCol_ne _ _ _ _ (by decide), getColD_setCol_ne _ _ _ _ (by decide),
      getColD_setCol_eq]
  have hM : ∀ j, (calcBollingerBands sq cfg df).getColD ColName.bbMiddle j =
      rollingMean cfg.bbPeriod (df.getColD ColName.bClose) j := by
    intro j
    simp only [calcBollingerBands]
    rw [getColD_setCol_ne _ _ _ _ (by decide), getColD_setCol_ne _ _ _ _ (by decide),
      getColD_setCol_ne _ _ _ _ (by decide), getColD_setCol_ne _ _ _ _ (by decide),
      getColD_setCol_eq]
  have hL : ∀ j, (calcBollingerBands sq cfg df).getColD ColName.bbLower j =
      PV.sub (rollingMean cfg.bbPeriod (df.getColD ColName.bClose) j)
        (PV.mul (rollingStd sq cfg.bbPeriod (df.getColD ColName.bClose) j)
          (PV.num cfg.bbStd)) := by
    intro j
    simp only [calcBollingerBands]
    rw [getColD_setCol_ne _ _ _ _ (by decide), getColD_setCol_ne _ _ _ _ (by decide),
      getColD_setCol_ne _ _ _ _ (by decide), getColD_setCol_ne _ _ _ _ (by decide),
      getColD_setCol_ne _ _ _ _ (by decide), getColD_setCol_eq]
  rw [hU i] at hu
  rw [hM i] at hm
  rw [hL i] at hl
  obtain ⟨x, y, hx, hy, hxy⟩ := PV.add_eq_num hu
  obtain ⟨x2, y2, hx2, hy2, hxy2⟩ := PV.sub_eq_num hl
  rw [hm] at hx hx2
  have hxm : x = m := by
    injection hx with h
    exact h.symm
  have hx2m : x2 = m := by
    injection hx2 with h
    exact h.symm
  obtain ⟨s, t, hs, ht, hyst⟩ := PV.mul_eq_num hy
  have htb : t = cfg.bbStd := by
    injection ht with h
    exact h.symm
  have hy2y : y2 = y := by
    rw [hy] at hy2
    injection hy2 with h
    exact h.symm
  have hs0 : 0 ≤ s := by
    have hstd := hs
    unfold rollingStd rollingAgg at hstd
    split at hstd
    · obtain ⟨q0, hq0, hq0nn, hsq0⟩ := PV.sqrtWith_eq_num hstd
      exact hsq0 ▸ hsq q0 hq0nn
    · exact absurd hstd (by simp)
  have hy0 : 0 ≤ y := by
    rw [hyst, htb]
    exact mul_nonneg hs0 hbb
  constructor
  · rw [hxy2, hx2m, hy2y]
    linarith
  · rw [hxy, hxm]
    linarith

/-- Configuration with `bb_period = 2`, `bb_std = 1` used by the C7
witness. -/
def c7cfg : IndicatorConfig :=
  { smaPeriods := [], emaPeriods := [], rsiPeriod := 14, macdFast := 12, macdSlow := 26,
    macdSignalP := 9, bbPeriod := 2, bbStd := 1, stochasticK := 14, stochasticD := 3 }

/-- Two-bar frame used by the C7 witness. -/
def c7df : DF := ⟨2, [(ColName.bClose, colOfList [PV.num 1, PV.num 3])]⟩

attribute [local semireducible] Rat.add Rat.sub Rat.mul Rat.inv in
/-- Witness for C7: on `c7df` the second bar has bands `0 ≤ 2 ≤ 4`. -/
theorem spec_c7_witness :
    (calcBollingerBands (fun q => q) c7cfg c7df).getColD ColName.bbUpper 1 = PV.num 4 ∧
    (calcBollingerBands (fun q => q) c7cfg c7df).getColD ColName.bbMiddle 1 = PV.num 2 ∧
    (calcBollingerBands (fun q => q) c7cfg c7df).getColD ColName.bbLower 1 = PV.num 0 ∧
    ((0 : ℚ) ≤ 2 ∧ (2 : ℚ) ≤ 4) :=
  ⟨by decide, by decide, by decide,
    spec_c7 (fun q => q) (fun _ h => h) c7cfg (by norm_num [c7cfg]) c7df 1 4 2 0
      (by decide) (by decide) (by decide)⟩

/-- Helper: a sum of finite nonnegative cells starting from a finite cell
is finite and at least the start. -/
theorem foldl_add_num_nonneg (l : List PV)
    (hl : ∀ x ∈ l, ∃ q : ℚ, x = PV.num q ∧ 0 ≤ q) :
    ∀ a : ℚ, ∃ s : ℚ, List.foldl PV.add (PV.num a) l = PV.num s ∧ a ≤ s := by
  induction l with
  | nil => exact fun a => ⟨a, rfl, le_refl a⟩
  | cons x r ih =>
      intro a
      obtain ⟨b, hb, hb0⟩ := hl x (by simp)
      subst hb
      obtain ⟨s, hs, has⟩ := ih (fun y hy => hl y (by simp [hy])) (a + b)
      refine ⟨s, ?_, by linarith⟩
      simpa [PV.add_num_num] using hs

/-- Helper: the sum of a list of finite nonnegative cells. -/
theorem pvSum_num_nonneg (l : List PV)
    (hl : ∀ x ∈ l, ∃ q : ℚ, x = PV.num q ∧ 0 ≤ q) :
    ∃ s : ℚ, pvSum l = PV.num s ∧ 0 ≤ s := by
  obtain ⟨s, hs, h0s⟩ := foldl_add_num_nonneg l hl 0
  exact ⟨s, hs, h0s⟩

/-- C1 (amended).  With finite closes, every defined RSI value lies in
`[0, 100]`; the RSI is `100` exactly when the window mean loss is `0` and
the window mean gain is positive; and on a flat window (both means `0`)
the RSI is missing (`0/0` ratio), not `100`. -/
theorem spec_c1 (n : ℕ) (hn : 1 ≤ n) (close : Col) (i : ℕ)
    (hfin : ∀ j, j ≤ i → (close j).isNum = true) :
    (∀ r : ℚ, rsiCol n close i = PV.num r → 0 ≤ r ∧ r ≤ 100) ∧
    (rsiCol n close i = PV.num 100 ↔
      rsiLoss n close i = PV.num 0 ∧ ∃ g : ℚ, rsiGain n close i = PV.num g ∧ 0 < g) ∧
    ((rsiGain n close i = PV.num 0 ∧ rsiLoss n close i = PV.num 0) →
      rsiCol n close i = PV.nan) := by
  by_cases hwin : n ≤ i + 1
  · have hdiff : ∀ j, 0 < j → j ≤ i → ∃ d : ℚ, diffCol close j = PV.num d := by
      intro j hj0 hji
      obtain ⟨qc, hqc⟩ := PV.isNum_iff.mp (hfin j hji)
      obtain ⟨qp, hqp⟩ := PV.isNum_iff.mp (hfin (j - 1) (by omega))
      exact ⟨qc - qp, by simp [diffCol, Nat.pos_iff_ne_zero.mp hj0, hqc, hqp, PV.sub_num_num]⟩
    have hgainEntry : ∀ x ∈ windowList
        (fun j => if PV.gt (diffCol close j) (PV.num 0) then diffCol close j else PV.num 0) n i,
        ∃ q : ℚ, x = PV.num q ∧ 0 ≤ q := by
      intro x hx
      obtain ⟨k, hk, he⟩ := List.mem_map.mp hx
      rw [← he]
      dsimp only
      have hk2 := List.mem_range.mp hk
      by_cases hc : PV.gt (diffCol close (i + 1 - n + k)) (PV.num 0) = true
      · have hj0 : 0 < i + 1 - n + k := by
          by_contra hz
          have hzz : i + 1 - n + k = 0 := by omega
          rw [hzz] at hc
          simp [diffCol, PV.gt, PV.lt] at hc
        obtain ⟨d, hd⟩ := hdiff (i + 1 - n + k) hj0 (by omega)
        rw [if_pos hc, hd]
        rw [hd] at hc
        refine ⟨d, rfl, le_of_lt ?_⟩
        simpa [PV.gt, PV.lt] using hc
      · rw [if_neg hc]
        exact ⟨0, rfl, le_refl 0⟩
    have hlossEntry : ∀ x ∈ windowList
        (fun j => PV.neg (if PV.lt (diffCol close j) (PV.num 0) then diffCol close j else PV.num 0)) n i,
        ∃ q : ℚ, x = PV.num q ∧ 0 ≤ q := by
      intro x hx
      obtain ⟨k, hk, he⟩ := List.mem_map.mp hx
      rw [← he]
      dsimp only
      have hk2 := List.mem_range.mp hk
      by_cases hc : PV.lt (diffCol close (i + 1 - n + k)) (PV.num 0) = true
      · have hj0 : 0 < i + 1 - n + k := by
          by_contra hz
          have hzz : i + 1 - n + k = 0 := by omega
          rw [hzz] at hc
          simp [diffCol, PV.lt] at hc
        obtain ⟨d, hd⟩ := hdiff (i + 1 - n + k) hj0 (by omega)
        rw [if_pos hc, hd]
        rw [hd] at hc
        refine ⟨-d, rfl, ?_⟩
        have : d < 0 := by simpa [PV.lt] using hc
        linarith
      · rw [if_neg hc]
        exact ⟨0, by simp [PV.neg], le_refl 0⟩
    have hnQ : (n : ℚ) ≠ 0 := Nat.cast_ne_zero.mpr (by omega)
    have hgain : ∃ g : ℚ, rsiGain n close i = PV.num g ∧ 0 ≤ g := by
      obtain ⟨s, hs, hs0⟩ := pvSum_num_nonneg _ hgainEntry
      refine ⟨s / n, ?_, div_nonneg hs0 (Nat.cast_nonneg n)⟩
      simp only [rsiGain, rollingMean, rollingAgg, if_pos (And.intro hn hwin), hs]
      simp [PV.div, hnQ]
    have hloss : ∃ l : ℚ, rsiLoss n close i = PV.num l ∧ 0 ≤ l := by
      obtain ⟨s, hs, hs0⟩ := pvSum_num_nonneg _ hlossEntry
      refine ⟨s / n, ?_, div_nonneg hs0 (Nat.cast_nonneg n)⟩
      simp only [rsiLoss, rollingMean, rollingAgg, if_pos (And.intro hn hwin), hs]
      simp [PV.div, hnQ]
    obtain ⟨g, hg, hg0⟩ := hgain
    obtain ⟨l, hl, hl0⟩ := hloss
    rcases eq_or_lt_of_le hl0 with hl0e | hl0lt
    · rcases eq_or_lt_of_le hg0 with hg0e | hg0lt
      · have hrsi : rsiCol n close i = PV.nan := by
          simp only [rsiCol, hg, hl, ← hg0e, ← hl0e]
          simp [PV.div, PV.add_nan_right, PV.div_nan_right, PV.sub_nan_right]
        refine ⟨?_, ?_, fun _ => hrsi⟩
        · intro r hr
          rw [hrsi] at hr
          exact absurd hr (by simp)
        · constructor
          · intro h
            rw [hrsi] at h
            exact absurd h (by simp)
          · rintro ⟨h1, g2, hg2, hg2pos⟩
            rw [hg, ← hg0e] at hg2
            have h0g : (0 : ℚ) = g2 := by injection hg2
            rw [← h0g] at hg2pos
            exact absurd hg2pos (lt_irrefl 0)
      · have hrsi : rsiCol n close i = PV.num 100 := by
          simp only [rsiCol, hg, hl, ← hl0e]
          have h1 : PV.div (PV.num g) (PV.num 0) = PV.pinf := by
            simp [PV.div, ne_of_gt hg0lt, hg0lt]
          rw [h1]
          simp [PV.add, PV.div, PV.sub, PV.neg, PV.add_num_num]
        refine ⟨?_, ?_, ?_⟩
        · intro r hr
          rw [hrsi] at hr
          have : (100 : ℚ) = r := by injection hr
          constructor <;> linarith [this]
        · constructor
          · intro _
            exact ⟨by rw [hl, ← hl0e], g, hg, hg0lt⟩
          · intro _
            exact hrsi
        · rintro ⟨hga, _⟩
          rw [hg] at hga
          have : g = 0 := by injection hga
          exact absurd (this ▸ hg0lt) (lt_irrefl 0)
    · have hlne : l ≠ 0 := ne_of_gt hl0lt
      have hgl0 : 0 ≤ g / l := div_nonneg hg0 hl0
      have h1gl : 0 < 1 + g / l := by linarith
      have h1glne : 1 + g / l ≠ 0 := ne_of_gt h1gl
      have hrsi : rsiCol n close i = PV.num (100 - 100 / (1 + g / l)) := by
        simp only [rsiCol, hg, hl]
        rw [show PV.div (PV.num g) (PV.num l) = PV.num (g / l) by simp [PV.div, hlne]]
        rw [PV.add_num_num,
          show PV.div (PV.num 100) (PV.num (1 + g / l)) = PV.num (100 / (1 + g / l)) by
            simp [PV.div, h1glne],
          PV.sub_num_num]
      have hratio_pos : 0 < 100 / (1 + g / l) := by positivity
      have hratio_le : 100 / (1 + g / l) ≤ 100 := by
        rw [div_le_iff₀ h1gl]
        nlinarith
      refine ⟨?_, ?_, ?_⟩
      · intro r hr
        rw [hrsi] at hr
        have : 100 - 100 / (1 + g / l) = r := by injection hr
        constructor <;> linarith [this]
      · constructor
        · intro h
          rw [hrsi] at h
          have he : 100 - 100 / (1 + g / l) = (100 : ℚ) := by injection h
          exact absurd he (by intro hc; nlinarith)
        · rintro ⟨h1, _⟩
          rw [hl] at h1
          have : l = 0 := by injection h1
          exact absurd this hlne
      · rintro ⟨_, h2⟩
        rw [hl] at h2
        have : l = 0 := by injection h2
        exact absurd this hlne
  · have hg : rsiGain n close i = PV.nan := by
      simp [rsiGain, rollingMean, rollingAgg, hwin]
    have hl : rsiLoss n close i = PV.nan := by
      simp [rsiLoss, rollingMean, rollingAgg, hwin]
    have hrsi : rsiCol n close i = PV.nan := by
      simp [rsiCol, hg, hl, PV.div_nan_left, PV.add_nan_right, PV.div_nan_right,
        PV.sub_nan_right]
    refine ⟨?_, ?_, fun _ => hrsi⟩
    · intro r hr
      rw [hrsi] at hr
      exact absurd hr (by simp)
    · constructor
      · intro h
        rw [hrsi] at h
        exact absurd h (by simp)
      · rintro ⟨h1, _⟩
        rw [hl] at h1
        exact absurd h1 (by simp)

attribute [local semireducible] Rat.add Rat.sub Rat.mul Rat.inv in
/-- Counterexample to C1 as stated: on a flat two-bar series with
`rsi_period = 1`, the second bar has window mean loss `0` (zero losses in
the window), yet the RSI is the missing `0/0` value, not `100`. -/
theorem spec_c1_counterexample :
    rsiLoss 1 (colOfList [PV.num 1, PV.num 1]) 1 = PV.num 0 ∧
    rsiCol 1 (colOfList [PV.num 1, PV.num 1]) 1 = PV.nan ∧
    rsiCol 1 (colOfList [PV.num 1, PV.num 1]) 1 ≠ PV.num 100 := by
  decide

attribute [local semireducible] Rat.add Rat.sub Rat.mul Rat.inv in
/-- Witness for C1 at a rising two-bar series with `rsi_period = 1`. -/
theorem spec_c1_witness :
    (∀ r : ℚ, rsiCol 1 (colOfList [PV.num 1, PV.num 3]) 1 = PV.num r → 0 ≤ r ∧ r ≤ 100) ∧
    (rsiCol 1 (colOfList [PV.num 1, PV.num 3]) 1 = PV.num 100 ↔
      rsiLoss 1 (colOfList [PV.num 1, PV.num 3]) 1 = PV.num 0 ∧
        ∃ g : ℚ, rsiGain 1 (colOfList [PV.num 1, PV.num 3]) 1 = PV.num g ∧ 0 < g) ∧
    ((rsiGain 1 (colOfList [PV.num 1, PV.num 3]) 1 = PV.num 0 ∧
        rsiLoss 1 (colOfList [PV.num 1, PV.num 3]) 1 = PV.num 0) →
      rsiCol 1 (colOfList [PV.num 1, PV.num 3]) 1 = PV.nan) :=
  spec_c1 1 (by decide) (colOfList [PV.num 1, PV.num 3]) 1 (by decide)

/-- Helper: with positive closes, every simple return `r` in the zipped
percentage changes satisfies `0 < 1 + r`. -/
theorem pct_zip_good (l : List PV) :
    ∀ c : PV, (∀ v ∈ c :: l, ∃ q : ℚ, v = PV.num q ∧ 0 < q) →
      ∀ x ∈ List.zipWith (fun prev cur => PV.div (PV.sub cur prev) prev) (c :: l) l,
        ∃ r : ℚ, x = PV.num r ∧ 0 < 1 + r := by
  induction l with
  | nil =>
      intro c _ x hx
      simp at hx
  | cons d r ih =>
      intro c hcl x hx
      rw [List.zipWith_cons_cons] at hx
      rcases List.mem_cons.mp hx with h1 | h1
      · obtain ⟨qc, hqc, hqc0⟩ := hcl c (by simp)
        obtain ⟨qd, hqd, hqd0⟩ := hcl d (by simp)
        refine ⟨(qd - qc) / qc, ?_, ?_⟩
        · rw [h1, hqc, hqd, PV.sub_num_num]
          simp [PV.div, ne_of_gt hqc0]
        · have he : 1 + (qd - qc) / qc = qd / qc := by
            field_simp
          rw [he]
          positivity
      · exact ih d (fun v hv => hcl v (by simp [List.mem_cons.mp hv])) x h1

/-- Helper: with positive closes, every return observation `r` satisfies
`0 < 1 + r`. -/
theorem retsOf_pos (close : List PV)
    (hpos : ∀ v ∈ close, ∃ q : ℚ, v = PV.num q ∧ 0 < q) :
    ∀ x ∈ retsOf close, ∃ r : ℚ, x = PV.num r ∧ 0 < 1 + r := by
  intro x hx
  have hx2 : x ∈ pctChangeList close := List.mem_of_mem_filter hx
  cases close with
  | nil => simp [pctChangeList] at hx2
  | cons c rest =>
      simp only [pctChangeList] at hx2
      rcases List.mem_cons.mp hx2 with h1 | h1
      · subst h1
        have hkeep := List.of_mem_filter hx
        simp [PV.isNan] at hkeep
      · exact pct_zip_good rest c hpos x h1

/-- Helper: a cumulative product of finite positive cells from a positive
start stays finite and positive. -/
theorem cumprodGo_pos (ys : List PV) :
    ∀ a : ℚ, 0 < a → (∀ y ∈ ys, ∃ q : ℚ, y = PV.num q ∧ 0 < q) →
      ∀ x ∈ cumprodGo (PV.num a) ys, ∃ q : ℚ, x = PV.num q ∧ 0 < q := by
  induction ys with
  | nil =>
      intro a _ _ x hx
      simp [cumprodGo] at hx
  | cons y yt ih =>
      intro a ha hys x hx
      obtain ⟨qy, hqy, hqy0⟩ := hys y (by simp)
      rw [hqy] at hx
      simp only [cumprodGo, PV.isNan, Bool.false_eq_true, if_false, PV.mul_num_num] at hx
      rcases List.mem_cons.mp hx with h1 | h1
      · exact ⟨a * qy, h1, mul_pos ha hqy0⟩
      · exact ih (a * qy) (mul_pos ha hqy0) (fun v hv => hys v (List.mem_cons_of_mem _ hv))
          x h1

/-- Helper: drawdown facts over the running maximum seeded with a positive
best-so-far `b`: every drawdown entry is finite and nonpositive, and if
all entries are zero the path chains upward from `b`. -/
theorem dd_facts (cs : List PV) :
    ∀ b : ℚ, 0 < b → (∀ x ∈ cs, ∃ q : ℚ, x = PV.num q ∧ 0 < q) →
      (∀ z ∈ List.zipWith (fun c m => PV.div (PV.sub c m) m) cs
          (expMaxGo (some (PV.num b)) cs),
        ∃ d : ℚ, z = PV.num d ∧ d ≤ 0) ∧
      ((∀ z ∈ List.zipWith (fun c m => PV.div (PV.sub c m) m) cs
          (expMaxGo (some (PV.num b)) cs),
          z = PV.num 0) →
        List.Chain' (fun x y => PV.le x y = true) cs ∧
        (∀ c0 ∈ cs.head?, PV.le (PV.num b) c0 = true)) := by
  induction cs with
  | nil =>
      intro b _ _
      constructor
      · intro z hz
        simp at hz
      · intro _
        exact ⟨List.chain'_nil, by simp⟩
  | cons c ct ih =>
      intro b hb hcs
      obtain ⟨q, hq, hq0⟩ := hcs c (by simp)
      have hmaxpos : 0 < max b q := lt_max_of_lt_left hb
      have hstep : expMaxGo (some (PV.num b)) (c :: ct) =
          PV.num (max b q) :: expMaxGo (some (PV.num (max b q))) ct := by
        rw [hq]
        simp [expMaxGo, PV.isNan, PV.max2]
      have hz0 : PV.div (PV.sub c (PV.num (max b q))) (PV.num (max b q)) =
          PV.num ((q - max b q) / max b q) := by
        rw [hq, PV.sub_num_num]
        simp [PV.div, ne_of_gt hmaxpos]
      obtain ⟨ihA, ihB⟩ := ih (max b q) hmaxpos
        (fun v hv => hcs v (List.mem_cons_of_mem _ hv))
      constructor
      · intro z hz
        rw [hstep, List.zipWith_cons_cons] at hz
        rcases List.mem_cons.mp hz with h1 | h1
        · refine ⟨(q - max b q) / max b q, by rw [h1, hz0], ?_⟩
          apply div_nonpos_of_nonpos_of_nonneg
          · have := le_max_right b q
            linarith
          · linarith
        · exact ihA z h1
      · intro hall
        have h0 : (q - max b q) / max b q = 0 := by
          have := hall (PV.div (PV.sub c (PV.num (max b q))) (PV.num (max b q)))
            (by rw [hstep, List.zipWith_cons_cons]; exact List.mem_cons_self _ _)
          rw [hz0] at this
          injection this
        have hqmax : q = max b q := by
          have hden : (max b q) ≠ 0 := ne_of_gt hmaxpos
          have := div_eq_zero_iff.mp h0
          rcases this with h | h
          · linarith [sub_eq_zero.mp h]
          · exact absurd h hden
        obtain ⟨hchain, hhead⟩ := ihB (fun z hz =>
          hall z (by rw [hstep, List.zipWith_cons_cons]; exact List.mem_cons_of_mem _ hz))
        constructor
        · rw [List.chain'_cons']
          refine ⟨?_, hchain⟩
          intro y hy
          have := hhead y hy
          rw [← hqmax] at this
          rw [hq]
          exact this
        · intro c0 hc0
          simp only [List.head?_cons, Option.mem_def, Option.some.injEq] at hc0
          rw [← hc0, hq, PV.le_num_num]
          calc b ≤ max b q := le_max_left b q
            _ = q := hqmax.symm

/-- Helper: the max-drawdown chain over a nonempty positive-close return
series: the series minimum of the drawdowns is finite and nonpositive,
and it is zero only when the cumulative path is nondecreasing. -/
theorem drawdown_facts (close : List PV)
    (hpos : ∀ v ∈ close, ∃ q : ℚ, v = PV.num q ∧ 0 < q)
    (hne : retsOf close ≠ []) :
    (∃ d : ℚ, seriesMin (drawdownOf (retsOf close)) = PV.num d ∧ d ≤ 0) ∧
    (seriesMin (drawdownOf (retsOf close)) = PV.num 0 →
      List.Chain' (fun x y => PV.le x y = true) (cumulativeOf (retsOf close))) := by
  have hrets := retsOf_pos close hpos
  have hyspos : ∀ y ∈ (retsOf close).map (fun r => PV.add (PV.num 1) r),
      ∃ q : ℚ, y = PV.num q ∧ 0 < q := by
    intro y hy
    obtain ⟨r, hrmem, heq⟩ := List.mem_map.mp hy
    obtain ⟨r', hr', hr'0⟩ := hrets r hrmem
    refine ⟨1 + r', ?_, hr'0⟩
    rw [← heq, hr', PV.add_num_num]
  cases hysc : (retsOf close).map (fun r => PV.add (PV.num 1) r) with
  | nil =>
      exfalso
      apply hne
      have := congrArg List.length hysc
      simpa using List.length_eq_zero.mp (by simpa using this)
  | cons y0 yt =>
      have hy0 : y0 ∈ (retsOf close).map (fun r => PV.add (PV.num 1) r) := by
        rw [hysc]; exact List.mem_cons_self _ _
      obtain ⟨q0, hq0, hq00⟩ := hyspos y0 hy0
      have hytpos : ∀ y ∈ yt, ∃ q : ℚ, y = PV.num q ∧ 0 < q := by
        intro y hy
        apply hyspos
        rw [hysc]
        exact List.mem_cons_of_mem _ hy
      have ha0 : 0 < 1 * q0 := by
        rw [one_mul]; exact hq00
      have hcum : cumulativeOf (retsOf close) =
          PV.num (1 * q0) :: cumprodGo (PV.num (1 * q0)) yt := by
        rw [cumulativeOf, hysc, cumprodList]
        rw [hq0]
        simp [cumprodGo, PV.isNan, PV.mul_num_num]
      have hctpos := cumprodGo_pos yt (1 * q0) ha0 hytpos
      have hmax : expandingMaxList (cumulativeOf (retsOf close)) =
          PV.num (1 * q0) :: expMaxGo (some (PV.num (1 * q0))) (cumprodGo (PV.num (1 * q0)) yt) := by
        rw [hcum]
        simp [expandingMaxList, expMaxGo, PV.isNan]
      have hdd : drawdownOf (retsOf close) =
          PV.div (PV.sub (PV.num (1 * q0)) (PV.num (1 * q0))) (PV.num (1 * q0)) ::
            List.zipWith (fun c m => PV.div (PV.sub c m) m) (cumprodGo (PV.num (1 * q0)) yt)
              (expMaxGo (some (PV.num (1 * q0))) (cumprodGo (PV.num (1 * q0)) yt)) := by
        rw [drawdownOf, hcum]
        have hmax2 : expandingMaxList (PV.num (1 * q0) :: cumprodGo (PV.num (1 * q0)) yt) =
            PV.num (1 * q0) :: expMaxGo (some (PV.num (1 * q0))) (cumprodGo (PV.num (1 * q0)) yt) := by
          rw [← hcum, hmax]
        rw [hmax2, List.zipWith_cons_cons]
      have hhead : PV.div (PV.sub (PV.num (1 * q0)) (PV.num (1 * q0))) (PV.num (1 * q0)) =
          PV.num 0 := by
        rw [PV.sub_num_num, sub_self]
        simp [PV.div, ne_of_gt ha0, ne_of_gt hq00]
      obtain ⟨hP1, hP2⟩ := dd_facts (cumprodGo (PV.num (1 * q0)) yt) (1 * q0) ha0 hctpos
      have hallnum : ∀ z ∈ drawdownOf (retsOf close), ∃ d : ℚ, z = PV.num d ∧ d ≤ 0 := by
        intro z hz
        rw [hdd] at hz
        rcases List.mem_cons.mp hz with h1 | h1
        · exact ⟨0, by rw [h1, hhead], le_refl 0⟩
        · exact hP1 z h1
      have hdropna : dropnaList (drawdownOf (retsOf close)) = drawdownOf (retsOf close) := by
        apply List.filter_eq_self.mpr
        intro z hz
        obtain ⟨d, hzd, _⟩ := hallnum z hz
        rw [hzd]
        rfl
      have hlen : (drawdownOf (retsOf close)).length ≠ 0 := by
        rw [hdd]
        simp
      have hsm : seriesMin (drawdownOf (retsOf close)) =
          List.foldl PV.min2 PV.pinf (drawdownOf (retsOf close)) := by
        rw [seriesMin, hdropna]
        rw [if_neg hlen]
      obtain ⟨m, hm, hmle⟩ := foldl_min2_pinf (drawdownOf (retsOf close))
        (fun z hz => by
          obtain ⟨d, hzd, _⟩ := hallnum z hz
          rw [hzd]
          rfl)
        (by
          rw [hdd]
          simp)
      constructor
      · refine ⟨m, by rw [hsm, hm], ?_⟩
        apply hmle
        rw [hdd, ← hhead]
        exact List.mem_cons_self _ _
      · intro hzero
        rw [hsm, hm] at hzero
        have hm0 : m = 0 := by injection hzero
        have hall0 : ∀ z ∈ List.zipWith (fun c m => PV.div (PV.sub c m) m)
            (cumprodGo (PV.num (1 * q0)) yt)
            (expMaxGo (some (PV.num (1 * q0))) (cumprodGo (PV.num (1 * q0)) yt)),
            z = PV.num 0 := by
          intro z hz
          have hzmem : z ∈ drawdownOf (retsOf close) := by
            rw [hdd]
            exact List.mem_cons_of_mem _ hz
          obtain ⟨d, hzd, hd0⟩ := hallnum z hzmem
          have hmd : m ≤ d := hmle d (by rw [← hzd]; exact hzmem)
          have : d = 0 := by linarith [hm0 ▸ hmd]
          rw [hzd, this]
        obtain ⟨hchain, hheadb⟩ := hP2 hall0
        rw [hcum, List.chain'_cons']
        exact ⟨hheadb, hchain⟩

/-- C5 (amended).  For positive closes the `max_drawdown` field is always
finite and nonpositive; with at least 30 return observations it is zero
only when the cumulative-return path is monotonically nondecreasing (for
shorter series the all-zero sentinel produces `0` regardless of the
path). -/
theorem spec_c5 (sq : ℚ → ℚ) (close : List PV)
    (hpos : ∀ v ∈ close, ∃ q : ℚ, v = PV.num q ∧ 0 < q) :
    (∃ d : ℚ, (calculateRiskMetrics sq close).maxDrawdown = PV.num d ∧ d ≤ 0) ∧
    (30 ≤ (retsOf close).length →
      (calculateRiskMetrics sq close).maxDrawdown = PV.num 0 →
      List.Chain' (fun x y => PV.le x y = true) (cumulativeOf (retsOf close))) := by
  by_cases hlen : (retsOf close).length < 30
  · constructor
    · refine ⟨0, ?_, le_refl 0⟩
      simp [calculateRiskMetrics, hlen, zeroRiskMetrics]
    · intro h30
      omega
  · have hne : retsOf close ≠ [] := by
      intro h
      rw [h] at hlen
      simp at hlen
    have hmdd : (calculateRiskMetrics sq close).maxDrawdown =
        seriesMin (drawdownOf (retsOf close)) := by
      simp [calculateRiskMetrics, hlen]
    obtain ⟨hA, hB⟩ := drawdown_facts close hpos hne
    constructor
    · rw [hmdd]
      exact hA
    · intro _ h0
      rw [hmdd] at h0
      exact hB h0

attribute [local semireducible] Rat.add Rat.sub Rat.mul Rat.inv in
/-- Counterexample to C5 as stated: a strictly falling 3-bar series has
only 2 return observations, so the all-zero sentinel reports
`max_drawdown = 0` even though the cumulative-return path
`[1/2, 1/4]` is strictly decreasing. -/
theorem spec_c5_counterexample :
    (calculateRiskMetrics (fun q => q) [PV.num 4, PV.num 2, PV.num 1]).maxDrawdown =
      PV.num 0 ∧
    cumulativeOf (retsOf [PV.num 4, PV.num 2, PV.num 1]) = [PV.num (1 / 2), PV.num (1 / 4)] ∧
    ¬ List.Chain' (fun x y => PV.le x y = true)
      (cumulativeOf (retsOf [PV.num 4, PV.num 2, PV.num 1])) := by
  refine ⟨by decide, by decide, ?_⟩
  intro h
  have h2 := List.chain'_cons.mp (by
    have : cumulativeOf (retsOf [PV.num 4, PV.num 2, PV.num 1]) =
        [PV.num (1 / 2), PV.num (1 / 4)] := by decide
    rwa [this] at h)
  revert h2
  decide

/-- A 31-bar constant close series (30 zero returns). -/
def c5flat : List PV := List.replicate 31 (PV.num 1)

set_option maxRecDepth 10000 in
attribute [local semireducible] Rat.add Rat.sub Rat.mul Rat.inv in
/-- Witness for C5 on the 31-bar constant series: 30 return observations,
zero max drawdown, and a nondecreasing cumulative path. -/
theorem spec_c5_witness :
    (∃ d : ℚ, (calculateRiskMetrics (fun q => q) c5flat).maxDrawdown = PV.num d ∧ d ≤ 0) ∧
    List.Chain' (fun x y => PV.le x y = true) (cumulativeOf (retsOf c5flat)) :=
  ⟨(spec_c5 (fun q => q) c5flat
      (fun _ hv => ⟨1, List.eq_of_mem_replicate hv, one_pos⟩)).1,
    (spec_c5 (fun q => q) c5flat
      (fun _ hv => ⟨1, List.eq_of_mem_replicate hv, one_pos⟩)).2 (by decide) (by decide)⟩

/-- Helper: a derived column name is never a raw OHLCV name. -/
theorem ne_of_isBase {b n : ColName} (hb : b.isBase = true) (hn : n.isBase = false) :
    ¬ n = b := by
  intro e
  rw [e, hb] at hn
  exact absurd hn (by simp)

/-- Helper: assigning a derived column leaves the raw columns
untouched. -/
theorem getCol?_setCol_base (df : DF) (n : ColName) (c : Col) (b : ColName)
    (hb : b.isBase = true) (hn : n.isBase = false) :
    (df.setCol n c).getCol? b = df.getCol? b :=
  getCol?_setCol_ne df n b c (ne_of_isBase hb hn)

/-- Helper: a fold of derived-column assignments leaves the raw columns
untouched. -/
theorem getCol?_foldl_setCol (f : ℕ → ColName) (g : DF → ℕ → Col) (ps : List ℕ)
    (hf : ∀ p, (f p).isBase = false) (df : DF) (b : ColName) (hb : b.isBase = true) :
    (ps.foldl (fun d p => d.setCol (f p) (g d p)) df).getCol? b = df.getCol? b := by
  induction ps generalizing df with
  | nil => rfl
  | cons p r ih =>
      rw [List.foldl_cons, ih]
      exact getCol?_setCol_base _ _ _ _ hb (hf p)

theorem calcMovingAverages_base (cfg : IndicatorConfig) (df : DF) (b : ColName)
    (hb : b.isBase = true) : (calcMovingAverages cfg df).getCol? b = df.getCol? b := by
  simp only [calcMovingAverages]
  split
  · rw [getCol?_setCol_base _ _ _ _ hb (by rfl), getCol?_setCol_base _ _ _ _ hb (by rfl),
      getCol?_foldl_setCol ColName.ema _ _ (fun _ => rfl) _ _ hb,
      getCol?_foldl_setCol ColName.sma _ _ (fun _ => rfl) _ _ hb]
  · rw [getCol?_foldl_setCol ColName.ema _ _ (fun _ => rfl) _ _ hb,
      getCol?_foldl_setCol ColName.sma _ _ (fun _ => rfl) _ _ hb]

theorem calcRsi_base (cfg : IndicatorConfig) (df : DF) (b : ColName)
    (hb : b.isBase = true) : (calcRsi cfg df).getCol? b = df.getCol? b := by
  simp only [calcRsi]
  rw [getCol?_setCol_base _ _ _ _ hb (by rfl), getCol?_setCol_base _ _ _ _ hb (by rfl),
    getCol?_setCol_base _ _ _ _ hb (by rfl)]

theorem calcMacd_base (cfg : IndicatorConfig) (df : DF) (b : ColName)
    (hb : b.isBase = true) : (calcMacd cfg df).getCol? b = df.getCol? b := by
  simp only [calcMacd]
  rw [getCol?_setCol_base _ _ _ _ hb (by rfl), getCol?_setCol_base _ _ _ _ hb (by rfl),
    getCol?_setCol_base _ _ _ _ hb (by rfl), getCol?_setCol_base _ _ _ _ hb (by rfl),
    getCol?_setCol_base _ _ _ _ hb (by rfl)]

theorem calcBollingerBands_base (sq : ℚ → ℚ) (cfg : IndicatorConfig) (df : DF) (b : ColName)
    (hb : b.isBase = true) : (calcBollingerBands sq cfg df).getCol? b = df.getCol? b := by
  simp only [calcBollingerBands]
  rw [getCol?_setCol_base _ _ _ _ hb (by rfl), getCol?_setCol_base _ _ _ _ hb (by rfl),
    getCol?_setCol_base _ _ _ _ hb (by rfl), getCol?_setCol_base _ _ _ _ hb (by rfl),
    getCol?_setCol_base _ _ _ _ hb (by rfl), getCol?_setCol_base _ _ _ _ hb (by rfl),
    getCol?_setCol_base _ _ _ _ hb (by rfl)]

theorem calcStochastic_base (cfg : IndicatorConfig) (df : DF) (b : ColName)
    (hb : b.isBase = true) : (calcStochastic cfg df).getCol? b = df.getCol? b := by
  simp only [calcStochastic]
  rw [getCol?_setCol_base _ _ _ _ hb (by rfl), getCol?_setCol_base _ _ _ _ hb (by rfl),
    getCol?_setCol_base _ _ _ _ hb (by rfl), getCol?_setCol_base _ _ _ _ hb (by rfl)]

theorem calcWilliamsR_base (df : DF) (b : ColName)
    (hb : b.isBase = true) : (calcWilliamsR df).getCol? b = df.getCol? b := by
  simp only [calcWilliamsR]
  rw [getCol?_setCol_base _ _ _ _ hb (by rfl)]

theorem calcCci_base (df : DF) (b : ColName)
    (hb : b.isBase = true) : (calcCci df).getCol? b = df.getCol? b := by
  simp only [calcCci]
  rw [getCol?_setCol_base _ _ _ _ hb (by rfl)]

theorem calcVolumeIndicators_base (df : DF) (b : ColName)
    (hb : b.isBase = true) : (calcVolumeIndicators df).getCol? b = df.getCol? b := by
  simp only [calcVolumeIndicators]
  rw [getCol?_setCol_base _ _ _ _ hb (by rfl), getCol?_setCol_base _ _ _ _ hb (by rfl),
    getCol?_setCol_base _ _ _ _ hb (by rfl), getCol?_setCol_base _ _ _ _ hb (by rfl)]

theorem calcAtr_base (df : DF) (b : ColName)
    (hb : b.isBase = true) : (calcAtr df).getCol? b = df.getCol? b := by
  simp only [calcAtr]
  rw [getCol?_setCol_base _ _ _ _ hb (by rfl)]

theorem calcKeltnerChannels_base (df : DF) (b : ColName)
    (hb : b.isBase = true) : (calcKeltnerChannels df).getCol? b = df.getCol? b := by
  simp only [calcKeltnerChannels]
  rw [getCol?_setCol_base _ _ _ _ hb (by rfl), getCol?_setCol_base _ _ _ _ hb (by rfl),
    getCol?_setCol_base _ _ _ _ hb (by rfl)]

theorem calcIchimoku_base (df : DF) (b : ColName)
    (hb : b.isBase = true) : (calcIchimoku df).getCol? b = df.getCol? b := by
  simp only [calcIchimoku]
  rw [getCol?_setCol_base _ _ _ _ hb (by rfl), getCol?_setCol_base _ _ _ _ hb (by rfl),
    getCol?_setCol_base _ _ _ _ hb (by rfl), getCol?_setCol_base _ _ _ _ hb (by rfl),
    getCol?_setCol_base _ _ _ _ hb (by rfl)]

theorem calcVwap_base (df : DF) (b : ColName)
    (hb : b.isBase = true) : (calcVwap df).getCol? b = df.getCol? b := by
  simp only [calcVwap]
  rw [getCol?_setCol_base _ _ _ _ hb (by rfl)]

/-- Helper: the full indicator pipeline never rewrites a raw OHLCV
column. -/
theorem calculateAll_base (sq : ℚ → ℚ) (cfg : IndicatorConfig) (df : DF) (b : ColName)
    (hb : b.isBase = true) : (calculateAll sq cfg df).getCol? b = df.getCol? b := by
  unfold calculateAll
  rw [calcVwap_base _ _ hb, calcIchimoku_base _ _ hb, calcKeltnerChannels_base _ _ hb,
    calcAtr_base _ _ hb, calcVolumeIndicators_base _ _ hb, calcCci_base _ _ hb,
    calcWilliamsR_base _ _ hb, calcStochastic_base _ _ _ hb,
    calcBollingerBands_base _ _ _ _ hb, calcMacd_base _ _ _ hb, calcRsi_base _ _ _ hb,
    calcMovingAverages_base _ _ _ hb]

/-- C8.  The indicator computation is a pure function, so two calls on the
same input produce identical output, and (since the source works on
`data.copy()` and only writes derived column names) the raw OHLCV columns
of the result are exactly those of the input frame. -/
theorem spec_c8 (sq : ℚ → ℚ) (cfg : IndicatorConfig) (df : DF) (_hne : 0 < df.nRows) :
    calculateAll sq cfg df = calculateAll sq cfg df ∧
    ∀ b : ColName, b.isBase = true →
      (calculateAll sq cfg df).getCol? b = df.getCol? b :=
  ⟨rfl, fun b hb => calculateAll_base sq cfg df b hb⟩

/-- Witness for C8 on a one-bar frame. -/
theorem spec_c8_witness :
    (calculateAll (fun q => q) defaultConfig
        ⟨1, [(ColName.bClose, colOfList [PV.num 1])]⟩).getCol? ColName.bClose =
      (⟨1, [(ColName.bClose, colOfList [PV.num 1])]⟩ : DF).getCol? ColName.bClose :=
  (spec_c8 (fun q => q) defaultConfig ⟨1, [(ColName.bClose, colOfList [PV.num 1])]⟩
    (by decide)).2 ColName.bClose rfl
